import Mathlib

/-!
Verification development for the `http-rest-file` request-file parser
(`src/parser.rs`).  The parser is shallowly embedded over `List Char`:
every `Parser::*` function of the source is translated to a Lean
definition of the same name, and the claims of the specification are
settled as theorems about those definitions.

The repository's `scanner` and `model` modules are not part of the given
sources (only `src/parser.rs` is); the `Scanner` operations and the plain
data-model types are therefore modelled from the specification (§3, §4.1)
and from how `parser.rs` uses them, and each such definition is marked
`Modelled from the spec`.
-/

namespace HttpRestFile

abbrev Chars := List Char

/-- Horizontal whitespace, the scanner's `WS_CHARS`.  Modelled from the
spec: the scanner skips "horizontal whitespace". -/
def isHWS (c : Char) : Bool := c = ' ' || c = '\t'

/-- Whitespace in the sense of Rust's `char::is_whitespace` / regex `\s`,
restricted to the ASCII whitespace characters. -/
def isWS (c : Char) : Bool := c = ' ' || c = '\t' || c = '\n' || c = '\r' || c = '\x0b' || c = '\x0c'

/-- Rust `str::trim_start`. -/
def trimStart (cs : Chars) : Chars := cs.dropWhile isWS

/-- Rust `str::trim_end`. -/
def trimEnd (cs : Chars) : Chars := (cs.reverse.dropWhile isWS).reverse

/-- Rust `str::trim`. -/
def trim (cs : Chars) : Chars := trimEnd (trimStart cs)

/-- Rust `str::trim_end_matches('\n')`. -/
def trimEndNewlines (cs : Chars) : Chars := (cs.reverse.dropWhile (· = '\n')).reverse

/-- `hasPrefix pat cs` is Rust `cs.starts_with(pat)`. -/
def hasPrefix : Chars → Chars → Bool
  | [], _ => true
  | _ :: _, [] => false
  | p :: ps, c :: cs => p = c && hasPrefix ps cs

/-- Rust `str::split(sep)`: splits at every separator occurrence, keeping
empty pieces (so the empty string yields one empty piece). -/
def splitOnChar (sep : Char) : Chars → List Chars
  | [] => [[]]
  | c :: cs =>
    let rest := splitOnChar sep cs
    if c = sep then [] :: rest
    else match rest with
      | [] => [[c]]
      | r :: rs => (c :: r) :: rs

/-- Tokenisation of a (newline-free) line on whitespace, dropping empty
tokens, as Rust `split_whitespace`.  Modelled from the spec: the request
line is tokenised "on whitespace". -/
def getTokens (cs : Chars) : List Chars :=
  ((splitOnChar ' ' (cs.map (fun c => if isWS c then ' ' else c))).filter (· ≠ []))

/-- `containsSub pat hay`: Rust `hay.contains(pat)` substring search. -/
def containsSub (pat : Chars) : Chars → Bool
  | [] => pat = []
  | c :: cs => hasPrefix pat (c :: cs) || containsSub pat cs

/-- Rust `str::contains(char)`. -/
def containsChar (ch : Char) (cs : Chars) : Bool := cs.contains ch

end HttpRestFile

namespace HttpRestFile

/-- The scanner's read head over the input text.  Modelled from the spec
(§4.1): a cursor into the full text, with the consumed part kept (in
reverse) so that positions, previous-line access and span extraction are
available.  `pos = left.length`. -/
structure Scanner where
  left : Chars
  rest : Chars
deriving DecidableEq, Repr

namespace Scanner

def new (s : String) : Scanner := ⟨[], s.data⟩

def pos (s : Scanner) : Nat := s.left.length

def is_done (s : Scanner) : Bool := s.rest.isEmpty

def peek (s : Scanner) : Option Char := s.rest.head?

/-- Peek `n` characters ahead; `none` if fewer than `n` remain.
Modelled from the spec: "peek N chars ahead". -/
def peek_n (s : Scanner) (n : Nat) : Option Chars :=
  if n ≤ s.rest.length then some (s.rest.take n) else none

/-- The current line (up to, not including, the next newline); `none` at
end of input.  Modelled from the spec. -/
def peek_line (s : Scanner) : Option Chars :=
  if s.rest.isEmpty then none else some (s.rest.takeWhile (· ≠ '\n'))

/-- Advance `n` characters, moving them onto the consumed side. -/
def advance (s : Scanner) (n : Nat) : Scanner :=
  ⟨(s.rest.take n).reverse ++ s.left, s.rest.drop n⟩

/-- Helper for `skip_to_next_line`, structurally recursive on the
remaining characters. -/
def skipLineAux : Chars → Chars → Scanner
  | l, [] => ⟨l, []⟩
  | l, c :: r => if c = '\n' then ⟨c :: l, r⟩ else skipLineAux (c :: l) r

/-- Consume up to and including the next newline (or to end of input). -/
def skip_to_next_line (s : Scanner) : Scanner := skipLineAux s.left s.rest

theorem skipLineAux_rest_le : ∀ (r l : Chars), (skipLineAux l r).rest.length ≤ r.length := by
  intro r
  induction r with
  | nil => intro l; simp [skipLineAux]
  | cons c r ih =>
    intro l
    by_cases hc : c = '\n'
    · simp [skipLineAux, hc]
    · simp only [skipLineAux, hc, if_false]
      exact le_trans (ih (c :: l)) (by simp)

theorem skip_to_next_line_rest_lt (s : Scanner) (h : s.rest ≠ []) :
    s.skip_to_next_line.rest.length < s.rest.length := by
  unfold skip_to_next_line
  match hr : s.rest with
  | [] => exact absurd hr h
  | c :: r =>
    by_cases hc : c = '\n'
    · simp [skipLineAux, hc]
    · simp only [skipLineAux, hc, if_false]
      exact lt_of_le_of_lt (skipLineAux_rest_le r (c :: s.left)) (by simp)

/-- Consume the current line and return it; `none` at end of input. -/
def get_line_and_advance (s : Scanner) : Option Chars × Scanner :=
  match s.peek_line with
  | none => (none, s)
  | some l => (some l, s.skip_to_next_line)

/-- Helper for `skip_ws`, structurally recursive on the remaining text. -/
def skipWsAux : Chars → Chars → Scanner
  | l, [] => ⟨l, []⟩
  | l, c :: r => if isHWS c then skipWsAux (c :: l) r else ⟨l, c :: r⟩

/-- Consume horizontal whitespace at the cursor.  Modelled from the spec. -/
def skip_ws (s : Scanner) : Scanner := skipWsAux s.left s.rest

/-- Fueled loop of `skip_empty_lines`; the fuel (remaining length plus
one) always suffices because every iteration consumes at least one
character. -/
def skipEmptyLinesAux : Nat → Scanner → Scanner
  | 0, s => s
  | fuel + 1, s =>
    match s.peek_line with
    | none => s
    | some l =>
      if l.all isHWS then skipEmptyLinesAux fuel s.skip_to_next_line else s

/-- Consume contiguous blank lines (lines holding only horizontal
whitespace).  Modelled from the spec: "skip contiguous blank lines". -/
def skip_empty_lines (s : Scanner) : Scanner := skipEmptyLinesAux (s.rest.length + 1) s

def skip_empty_lines_and_ws (s : Scanner) : Scanner := s.skip_empty_lines.skip_ws

/-- Match a literal prefix, consuming it only on success.  Modelled from
the spec: "match a literal prefix (consumes only on success)". -/
def match_str_forward (s : Scanner) (pat : Chars) : Bool × Scanner :=
  if hasPrefix pat s.rest then (true, s.advance pat.length) else (false, s)

/-- Consume a single expected character. -/
def take (s : Scanner) (c : Char) : Bool × Scanner :=
  match s.rest with
  | c2 :: r => if c2 = c then (true, ⟨c2 :: s.left, r⟩) else (false, s)
  | [] => (false, s)

/-- Seek to a delimiter, returning the characters before it and consuming
through it; fails (without a result) if the delimiter does not occur.
Modelled from the spec: "seek-and-consume through a delimiter or fail if
absent before end". -/
def seek_return (s : Scanner) (c : Char) : Option (Chars × Scanner) :=
  if containsChar c s.rest then
    let pre := s.rest.takeWhile (· ≠ c)
    some (pre, s.advance (pre.length + 1))
  else none

/-- The line preceding the cursor's current line.  Modelled from the spec
("compute line/column from an offset" family); used only with the cursor
at a line start. -/
def get_prev_line (s : Scanner) : Option Chars :=
  match s.left.dropWhile (· ≠ '\n') with
  | c :: t => if c = '\n' then some ((t.takeWhile (· ≠ '\n')).reverse) else none
  | [] => none

/-- Helper for `step_to_previous_line_start`, structurally recursive on
the consumed characters. -/
def stepBackAux : Chars → Chars → Scanner
  | [], r => ⟨[], r⟩
  | c :: t, r => if c = '\n' then ⟨c :: t, r⟩ else stepBackAux t (c :: r)

/-- Move the cursor back to the start of the current line.  Modelled from
the spec's snapshot/restore facility as used by `parse_raw_body`. -/
def step_back_to_line_start (s : Scanner) : Scanner := stepBackAux s.left s.rest

def step_to_previous_line_start (s : Scanner) : Scanner :=
  match s.left with
  | [] => s
  | c :: t => step_back_to_line_start ⟨t, c :: s.rest⟩

/-- The characters between snapshot `s0` and the later position of `s1`:
`Scanner::get_from_to` over a start/end snapshot pair. -/
def get_from_to (s0 s1 : Scanner) : Chars :=
  s0.rest.take (s1.pos - s0.pos)

end Scanner

end HttpRestFile

namespace HttpRestFile

/-- Closed diagnostic kinds of the parser (`ParseError`).  The error
module is not under the given sources; the variants and their payloads
are modelled from the spec (§7) and from every construction site in
`parser.rs`.  `InvalidSingleMultipartHeaders` in the source also carries
the rendered message of the inner error; the rendering lives outside the
given sources and is omitted here. -/
inductive ParseError where
  | MissingRequestTargetLine
  | TooManyElementsOnRequestLine (extra : String)
  | InvalidHeaderField (line : String)
  | MissingMultipartHeaderBoundaryDefinition (defaultBoundary : String)
  | InvalidMultipartBoundaryLength
  | InvalidMultipartBoundaryCharacter (ch : String)
  | MissingMultipartStartingBoundary
  | MissingMultipartBoundary (next_boundary : String) (end_boundary : String)
  | MissingSingleMultipartContentDispositionHeader
  | WrongMultipartContentDispositionHeader (key : String)
  | InvalidMultipartContentDispositionFormData (kind : String)
  | MalformedContentDispositionEntries (entry : String)
  | SingleMultipartNameMissing (msg : String)
  | SingleMultipartMissingEmptyLine
  | MultipartShouldBeEndedWithBoundary (endLine : String)
  | InvalidSingleMultipartHeaders (header_parse_err : ParseError)
  | MissingPreRequestScript
  | MissingPreRequestScriptClose
  | MissingResponseHandlerClose
  | MissingResponseOutputPath
  | InvalidHttpVersion (version : String)
deriving DecidableEq, Repr

/-- A diagnostic with optional elaboration text and source offsets.
Modelled from the spec (§3: "closed error kind + optional elaboration
text + optional start/end source offsets"). -/
structure ParseErrorDetails where
  error : ParseError
  details : Option String
  start_pos : Option Nat
  end_pos : Option Nat
deriving DecidableEq, Repr

/-- `ParseErrorDetails::new_with_position`.  Modelled from the spec:
positions are attached, no elaboration text. -/
def ParseErrorDetails.new_with_position (e : ParseError) (p : Nat × Option Nat) :
    ParseErrorDetails :=
  ⟨e, none, some p.1, p.2⟩

/-- `ParseErrorDetails::from(ParseError)` / `..Default::default()`:
no text, no positions. -/
def ParseErrorDetails.ofError (e : ParseError) : ParseErrorDetails := ⟨e, none, none, none⟩

/-- Explicit-or-default value (§3): distinguishes "user wrote it" from
"omitted". -/
inductive WithDefault (α : Type) where
  | Some (v : α)
  | Default
deriving DecidableEq, Repr

/-- `WithDefault::from(Option)`. -/
def WithDefault.ofOption : Option α → WithDefault α
  | .some v => .Some v
  | .none => .Default

/-- Http method; `HttpMethod::new` keeps the token as written (well-known
verbs and `CUSTOM` alike carry the same token), so the method is modelled
as its token.  Modelled from the spec. -/
abbrev HttpMethod := String

/-- Request target classification.  Modelled from the spec (§4.4):
`*` → Asterisk; a target starting with `/` → origin-relative; anything
else (scheme or host[:port][/path] shapes) → Absolute. -/
inductive RequestTarget where
  | Asterisk
  | Absolute (uri : String)
  | RelativeOrigin (uri : String)
deriving DecidableEq, Repr

/-- `RequestTarget::from(&str)`.  Modelled from the spec (§4.4). -/
def RequestTarget.ofStr (s : String) : RequestTarget :=
  if s = "*" then .Asterisk
  else if hasPrefix ['/'] s.data then .RelativeOrigin s
  else .Absolute s

structure HttpVersion where
  major : Nat
  minor : Nat
deriving DecidableEq, Repr

def natOfDigits (cs : Chars) : Nat := cs.foldl (fun a c => a * 10 + (c.toNat - 48)) 0

/-- `HttpVersion::from_str`.  Modelled from the spec (§4.4): the version
token must match `HTTP/<digits>.<digits>`, otherwise the request line
carries a non-fatal `InvalidHttpVersion` diagnostic. -/
def HttpVersion.from_str (s : String) : Except ParseError HttpVersion :=
  let cs := s.data
  if hasPrefix "HTTP/".data cs then
    let t := cs.drop 5
    let d1 := t.takeWhile Char.isDigit
    match t.drop d1.length with
    | '.' :: t2 =>
      let d2 := t2.takeWhile Char.isDigit
      if d1 ≠ [] ∧ d2 ≠ [] ∧ t2.drop d2.length = [] then
        .ok ⟨natOfDigits d1, natOfDigits d2⟩
      else .error (.InvalidHttpVersion s)
    | _ => .error (.InvalidHttpVersion s)
  else .error (.InvalidHttpVersion s)

structure RequestLine where
  method : WithDefault HttpMethod
  target : RequestTarget
  http_version : WithDefault HttpVersion
deriving DecidableEq, Repr

structure Header where
  key : String
  value : String
deriving DecidableEq, Repr

/-- Comment dialects (§3). -/
inductive CommentKind where
  | RequestSeparator
  | DoubleSlash
  | SingleTag
deriving DecidableEq, Repr

/-- `CommentKind::string_repr`. -/
def CommentKind.string_repr : CommentKind → String
  | .RequestSeparator => "###"
  | .DoubleSlash => "//"
  | .SingleTag => "#"

structure Comment where
  value : String
  kind : CommentKind
deriving DecidableEq, Repr

/-- Request settings (§3): three independent optional booleans.  Modelled
from the spec and the repository's expected defaults (all explicitly
`false` until a directive sets one). -/
structure RequestSettings where
  no_cookie_jar : Option Bool
  no_redirect : Option Bool
  no_log : Option Bool
deriving DecidableEq, Repr

def RequestSettings.default : RequestSettings := ⟨some false, some false, some false⟩

inductive SettingsEntry where
  | NameEntry (name : String)
  | NoCookieJar
  | NoRedirect
  | NoLog
deriving DecidableEq, Repr

/-- `RequestSettings::set_entry`.  Modelled from the spec: directives set
the respective flag. -/
def RequestSettings.set_entry (s : RequestSettings) : SettingsEntry → RequestSettings
  | .NoCookieJar => { s with no_cookie_jar := some true }
  | .NoRedirect => { s with no_redirect := some true }
  | .NoLog => { s with no_log := some true }
  | .NameEntry _ => s

inductive DataSource where
  | Raw (content : String)
  | FromFilepath (path : String)
deriving DecidableEq, Repr

structure UrlEncodedParam where
  key : String
  value : String
deriving DecidableEq, Repr

structure DispositionField where
  name : String
  filename : Option String
  filename_star : Option String
deriving DecidableEq, Repr

def DispositionField.new_with_filename (name : String) (filename : Option String) :
    DispositionField := ⟨name, filename, none⟩

structure Multipart where
  disposition : DispositionField
  headers : List Header
  data : DataSource
deriving DecidableEq, Repr

inductive RequestBody where
  | None
  | Raw (data : DataSource)
  | UrlEncoded (url_encoded_params : List UrlEncodedParam)
  | Multipart (boundary : String) (parts : List HttpRestFile.Multipart)
deriving DecidableEq, Repr

inductive PreRequestScript where
  | Script (s : String)
  | FromFilepath (path : String)
deriving DecidableEq, Repr

/-- `PreRequestScript`'s display form, as consumed by the placeholder
substitution (`prs.to_string()`).  Modelled from the spec: the script
slot is "inline script text | file-path reference", displayed as its
text. -/
def PreRequestScript.toStr : PreRequestScript → String
  | .Script s => s
  | .FromFilepath p => p

inductive ResponseHandler where
  | Script (s : String)
  | FromFilepath (path : String)
deriving DecidableEq, Repr

inductive SaveResponse where
  | RewriteFile (path : String)
  | NewFileIfExists (path : String)
deriving DecidableEq, Repr

structure Request where
  name : Option String
  comments : List Comment
  request_line : RequestLine
  headers : List Header
  body : RequestBody
  settings : RequestSettings
  pre_request_script : Option PreRequestScript
  response_handler : Option ResponseHandler
  save_response : Option SaveResponse
deriving DecidableEq, Repr

/-- Partial request: every field of `Request` as optional (§3). -/
structure PartialRequest where
  name : Option String
  comments : List Comment
  settings : RequestSettings
  request_line : Option RequestLine
  headers : Option (List Header)
  body : Option RequestBody
  pre_request_script : Option PreRequestScript
  response_handler : Option ResponseHandler
  save_response : Option SaveResponse
deriving DecidableEq, Repr

structure ErrorWithPartial where
  partial_request : PartialRequest
  details : List ParseErrorDetails
deriving DecidableEq, Repr

structure FileParseResult where
  requests : List Request
  errs : List ErrorWithPartial
deriving DecidableEq, Repr

end HttpRestFile

namespace HttpRestFile

/-- The `'\x7b'` character (left brace), named to keep literals readable. -/
def lbrace : Char := Char.ofNat 123

/-- The `'\x7d'` character (right brace). -/
def rbrace : Char := Char.ofNat 125

/-- `regex::escape`: a backslash before every regex meta character. -/
def isRegexMeta (c : Char) : Bool :=
  c ∈ (['\\', '.', '+', '*', '?', '(', ')', '|', '[', ']', lbrace, rbrace,
        '^', '$', '#', '&', '-', '~'] : List Char)

def regexEscape (cs : Chars) : Chars :=
  cs.foldr (fun c acc => (if isRegexMeta c then ['\\', c] else [c]) ++ acc) []

def joinWith (sep : Chars) : List Chars → Chars
  | [] => []
  | [x] => x
  | x :: xs => x ++ sep ++ joinWith sep xs

def REQUEST_SEPARATOR : Chars := "###".data

def DEFAULT_MULTIPART_BOUNDARY : Chars := "--boundary--".data

namespace Parser

open ParseError

/-- Anchored match of the meta-name pattern `\s*@name\s*=\s*(.*)` against
the given text; returns the capture (the rest of the line after `=` and
whitespace). -/
def matchNameDirective (cs : Chars) : Option Chars :=
  let t1 := cs.dropWhile isWS
  if hasPrefix "@name".data t1 then
    let t2 := (t1.drop 5).dropWhile isWS
    match t2 with
    | '=' :: t3 => some ((t3.dropWhile isWS).takeWhile (· ≠ '\n'))
    | _ => none
  else none

/-- `Parser::parse_meta_name`: the scanner skips whitespace, then the
`@name` pattern is matched; the capture is trimmed.  (The source returns
`Ok(Some(name))` or `Ok(None)`; the impossible `Err` is dropped.) -/
def parse_meta_name (s : Scanner) : Option String :=
  (matchNameDirective s.skip_ws.rest).map (fun c => String.mk (trim c))

/-- `Parser::parse_comment_line`: after the comment marker, skip
whitespace and read to the newline; a comment line unterminated before
the input's end is a `MissingRequestTargetLine` error. -/
def parse_comment_line (s : Scanner) (kind : CommentKind) :
    Except ParseErrorDetails (Option Comment) × Scanner :=
  let s1 := s.skip_ws
  match s1.seek_return '\n' with
  | some (value, s2) => (.ok (some ⟨String.mk value, kind⟩), s2)
  | none => (.error (.new_with_position .MissingRequestTargetLine (s1.pos, none)), s1)

/-- `Parser::parse_comment`: try the `###`, `//` and `#` markers in that
order. -/
def parse_comment (s : Scanner) : Except ParseErrorDetails (Option Comment) × Scanner :=
  let s1 := s.skip_empty_lines.skip_ws
  let (m1, s2) := s1.match_str_forward CommentKind.RequestSeparator.string_repr.data
  if m1 then parse_comment_line s2 .RequestSeparator
  else
    let (m2, s3) := s1.match_str_forward CommentKind.DoubleSlash.string_repr.data
    if m2 then parse_comment_line s3 .DoubleSlash
    else
      let (m3, s4) := s1.match_str_forward CommentKind.SingleTag.string_repr.data
      if m3 then parse_comment_line s4 .SingleTag
      else (.ok none, s1)

/-- `Parser::parse_meta_comment_line`: peek the current line; if it is a
`//` or `#` comment, try the `@name` directive (any match consumes the
line; an empty capture yields no entry), then the exact settings
directives.  Anything else is left for the regular comment parser. -/
def parse_meta_comment_line (s : Scanner) :
    Option (Except ParseErrorDetails SettingsEntry) × Scanner :=
  let s1 := s.skip_ws
  match s1.peek_line with
  | none => (none, s1)
  | some line =>
    let ls0 : Scanner := ⟨[], line⟩
    let ls1 := ls0.skip_ws
    let (m1, ls2) := ls1.match_str_forward "//".data
    let (mTag, lsAfter) :=
      if m1 then (true, ls2)
      else
        let (m2, ls3) := ls1.match_str_forward "#".data
        (m2, ls3)
    if mTag then
      match parse_meta_name lsAfter with
      | some name =>
        let s2 := s1.skip_to_next_line
        if name ≠ "" then (some (.ok (.NameEntry name)), s2) else (none, s2)
      | none =>
        match lsAfter.peek_line with
        | none => (none, s1)
        | some l2 =>
          let t := String.mk (trim l2)
          if t = "@no-cookie-jar" then (some (.ok .NoCookieJar), s1.skip_to_next_line)
          else if t = "@no-redirect" then (some (.ok .NoRedirect), s1.skip_to_next_line)
          else if t = "@no-log" then (some (.ok .NoLog), s1.skip_to_next_line)
          else (none, s1)
    else (none, s1)

/-- Index of the start of the last occurrence of `pat` in `cs`. -/
def lastSubIdxAux (pat : Chars) : Chars → Nat → Option Nat → Option Nat
  | [], _, acc => acc
  | c :: cs, i, acc =>
    lastSubIdxAux pat cs (i + 1) (if hasPrefix pat (c :: cs) then some i else acc)

def lastSubIdx (pat cs : Chars) : Option Nat := lastSubIdxAux pat cs 0 none

/-- Anchored match of `(.*)%}` at the cursor: since `.` does not cross a
newline, the pattern matches exactly when the current line contains `%}`;
the greedy group captures up to the last occurrence, which is consumed. -/
def matchScriptClose (s : Scanner) : Option (Chars × Scanner) :=
  let line := s.rest.takeWhile (· ≠ '\n')
  match lastSubIdx "%\x7d".data line with
  | some i => some (line.take i, s.advance (i + 2))
  | none => none

/-- The `{% ... %}` collection loop shared by the pre-request script and
the response handler: collect lines until one contains the close marker.
Returns the collected lines, whether the close was found, and the
scanner. -/
def scriptLinesLoop : Nat → Scanner → List Chars → (List Chars × Bool × Scanner)
  | 0, s, lines => (lines, false, s)
  | fuel + 1, s, lines =>
    match matchScriptClose s with
    | some (cap, s1) => (lines ++ [cap], true, s1)
    | none =>
      match s.get_line_and_advance with
      | (none, s1) => (lines, false, s1)
      | (some l, s1) => scriptLinesLoop fuel s1 (lines ++ [l])

/-- `Parser::parse_pre_request_script`. -/
def parse_pre_request_script (s : Scanner) :
    Except ParseErrorDetails (Option PreRequestScript) × Scanner :=
  let (took, s1) := s.take '<'
  if !took then (.ok none, s)
  else
    let startPos := s1.pos
    let s2 := s1.skip_ws
    let (m, s3) := s2.match_str_forward [lbrace, '%']
    if !m then
      match s3.get_line_and_advance with
      | (none, s4) =>
        (.error ⟨.MissingPreRequestScript,
          some "When a '<' character is encountered before the request target line you can either specify a path to a file whose content will be inserted",
          some startPos, some s4.pos⟩, s4)
      | (some line, s4) =>
        (.ok (some (.FromFilepath (String.mk (trim line)))), s4)
    else
      match scriptLinesLoop (s3.rest.length + 1) s3 [] with
      | (lines, true, s4) =>
        (.ok (some (.Script (String.mk (joinWith ['\n'] lines)))), s4.skip_to_next_line)
      | (_, false, s4) =>
        (.error (.new_with_position .MissingPreRequestScriptClose (startPos, some s4.pos)), s4)

/-- Fueled loop of `collectIndented`; the fuel always suffices because
every iteration consumes at least one character. -/
def collectIndentedAux : Nat → Scanner → List Chars × Scanner
  | 0, s => ([], s)
  | fuel + 1, s =>
    match s.peek_line with
    | some (c :: cl) =>
      if isHWS c then
        let (ls, s1) := collectIndentedAux fuel s.skip_to_next_line
        ((c :: cl) :: ls, s1)
      else ([], s)
    | _ => ([], s)

/-- Collect the indented continuation lines following the request line
(the `LineIterator::take_while_peek` call): lines that are nonempty and
start with horizontal whitespace are consumed. -/
def collectIndented (s : Scanner) : List Chars × Scanner :=
  collectIndentedAux (s.rest.length + 1) s

/-- `Parser::match_request_method`: every token is kept as written. -/
def match_request_method (s : String) : HttpMethod := s

/-- The token-count dispatch of `Parser::parse_request_line` (§4.4):
the stray-header check, then the 0/1/2/3/more-token cases.  `lineStart`
and `lineEnd` only position the diagnostics. -/
def requestLineFromTokens (tokens : List Chars) (lineStart lineEnd : Nat) :
    Except ParseErrorDetails (RequestLine × List ParseErrorDetails) :=
  -- a line of two or more tokens whose first holds a colon is a stray header
  match tokens with
  | t0 :: _ :: _ =>
    if containsChar ':' t0 then
      .error ⟨.MissingRequestTargetLine, none, some lineStart, none⟩
    else
      match tokens with
      | [method, targetStr] =>
        .ok (⟨.Some (match_request_method (String.mk method)),
              .ofStr (String.mk targetStr), .Default⟩, [])
      | [method, targetStr, versionStr] =>
        let lineEnd3 := lineStart + tokens.length
        match HttpVersion.from_str (String.mk versionStr) with
        | .ok v =>
          .ok (⟨.Some (match_request_method (String.mk method)),
                .ofStr (String.mk targetStr), .Some v⟩, [])
        | .error e =>
          .ok (⟨.Some (match_request_method (String.mk method)),
                .ofStr (String.mk targetStr), .Default⟩,
            [.new_with_position e (lineStart, some lineEnd3)])
      | method :: targetStr :: versionStr :: excess =>
        let httpVersion := match HttpVersion.from_str (String.mk versionStr) with
          | .ok v => some v
          | .error _ => none
        let err := ParseErrorDetails.new_with_position
          (.TooManyElementsOnRequestLine (String.mk (joinWith [','] excess)))
          (lineStart, some lineEnd)
        .ok (⟨.Some (match_request_method (String.mk method)),
              .ofStr (String.mk targetStr), .ofOption httpVersion⟩, [err])
      | _ =>
        .error ⟨.MissingRequestTargetLine, none, some lineStart, none⟩
  | [targetStr] =>
    .ok (⟨.Default, .ofStr (String.mk targetStr), .Default⟩, [])
  | [] =>
    .error ⟨.MissingRequestTargetLine, none, some lineStart, none⟩

/-- `Parser::parse_request_line`: read the first line, fold the indented
continuation lines into it (each trimmed, concatenated with no
separator), tokenise on whitespace and dispatch. -/
def parse_request_line (s : Scanner) :
    Except ParseErrorDetails (RequestLine × List ParseErrorDetails) × Scanner :=
  let (lineOpt, s1) := s.get_line_and_advance
  let line := lineOpt.getD []
  let lineStart := s1.pos
  let (indented, s2) := collectIndented s1
  let fullLine := line ++ (indented.map trim).flatten
  let tokens := getTokens fullLine
  (requestLineFromTokens tokens lineStart s2.pos, s2)

/-- The acceptance function of the header regex
`^([^:]+):\s*(.+)\s*` under the regex crate's leftmost-first (greedy)
capture semantics: the key is everything before the first colon (at least
one character), then after the colon the greedy `\s*` takes the maximal
whitespace run that still leaves at least one character for `(.+)`, which
then captures through the end of the line (the trailing `\s*` matches the
empty string).  So an empty remainder rejects the line; an all-whitespace
remainder captures exactly its last character; otherwise the value is the
remainder with its leading whitespace removed and any trailing whitespace
kept. -/
def headerOfLine (line : Chars) : Option (String × String) :=
  let key := line.takeWhile (· ≠ ':')
  if key = [] then none
  else
    match line.drop key.length with
    | ':' :: r =>
      if r = [] then none
      else
        let t := r.dropWhile isWS
        if t = [] then some (String.mk key, String.mk (r.drop (r.length - 1)))
        else some (String.mk key, String.mk t)
    | _ => none

/-- The loop of `Parser::parse_headers`: read lines until the input ends
or a blank line ends the section; every consumed line must match the
header pattern.  The fuel always suffices because every iteration
consumes at least one character. -/
def parse_headers_aux : Nat → Scanner → List Header →
    Except ParseErrorDetails (List Header) × Scanner
  | 0, s, acc => (.ok acc, s)
  | fuel + 1, s, acc =>
    match s.rest with
    | [] => (.ok acc, s)
    | c :: _ =>
      if c = '\n' then (.ok acc, s)
      else
        let line := s.rest.takeWhile (· ≠ '\n')
        let s1 := s.skip_to_next_line
        match headerOfLine line with
        | some (k, v) => parse_headers_aux fuel s1 (acc ++ [⟨k, v⟩])
        | none =>
          (.error (.new_with_position (.InvalidHeaderField (String.mk line)) (s1.pos, none)), s1)

/-- `Parser::parse_headers`. -/
def parse_headers (s : Scanner) : Except ParseErrorDetails (List Header) × Scanner :=
  parse_headers_aux (s.rest.length + 1) s []

/-- `Parser::parse_body_urlencoded`. -/
def parse_body_urlencoded (s : Scanner) : RequestBody × Scanner :=
  match s.peek_line with
  | none => (.UrlEncoded [], s)
  | some l0 =>
    let l := trim l0
    if hasPrefix REQUEST_SEPARATOR l then (.UrlEncoded [], s)
    else
      let params := (splitOnChar '&' l).map (fun kv =>
        let pieces := splitOnChar '=' kv
        (⟨String.mk ((pieces.head?).getD []), String.mk (((pieces.drop 1).head?).getD [])⟩ :
          UrlEncodedParam))
      (.UrlEncoded params, s.skip_to_next_line)

/-- The scan loop of `Parser::parse_raw_body`: consume lines until a
separator, a response-handler line (`>`), or a redirect line (`>>`); if
the line before such a terminator is blank, the cursor steps back before
it.  (The `>>` branch of the source is unreachable: the `>` branch
already catches it; it is kept here for fidelity.) -/
def raw_body_loop : Nat → Scanner → Scanner
  | 0, s => s
  | fuel + 1, s =>
    match s.peek_line with
    | none => s
    | some pl =>
      if hasPrefix REQUEST_SEPARATOR pl then s
      else if hasPrefix ['>'] pl then
        if (s.get_prev_line).elim false (fun l => trim l = []) then
          s.step_to_previous_line_start
        else s
      else if hasPrefix ['>', '>'] pl then
        if (s.get_prev_line).elim false (fun l => trim l = []) then
          s.step_to_previous_line_start
        else s
      else raw_body_loop fuel s.skip_to_next_line

/-- `Parser::parse_raw_body`. -/
def parse_raw_body (s : Scanner) : RequestBody × Scanner :=
  if s.is_done then (.None, s)
  else
    let send := raw_body_loop (s.rest.length + 1) s
    let bodyStr := s.get_from_to send
    if hasPrefix ['<'] (trim bodyStr) then
      let path := trim (((splitOnChar '<' bodyStr).drop 1).head?.getD [])
      (.Raw (.FromFilepath (String.mk path)), send)
    else if bodyStr ≠ [] then
      (.Raw (.Raw (String.mk (trimEndNewlines bodyStr))), send)
    else (.None, send)

end Parser

end HttpRestFile

namespace HttpRestFile

namespace Parser

/-- The UTF-8 encoding of one scalar value, as byte values, exactly as
Rust's `str` stores it. -/
def utf8EncodeChar (c : Char) : List Nat :=
  let v := c.toNat
  if v < 128 then [v]
  else if v < 2048 then [192 + v / 64, 128 + v % 64]
  else if v < 65536 then [224 + v / 4096, 128 + (v / 64) % 64, 128 + v % 64]
  else [240 + v / 262144, 128 + (v / 4096) % 64, 128 + (v / 64) % 64, 128 + v % 64]

/-- The UTF-8 bytes of a string, as `boundary.as_bytes()` walks them and
as `boundary.len()` counts them. -/
def utf8Bytes (cs : Chars) : List Nat := (cs.map utf8EncodeChar).flatten

/-- The byte `match` of `Parser::is_multipart_boundary_valid`: the ASCII
digit, lowercase and uppercase ranges plus the listed punctuation bytes
(apostrophe, parentheses, dot, comma, hyphen, underscore, plus, slash,
colon, question mark, equals — the source's order). -/
def isBoundaryByteAllowed (y : Nat) : Bool :=
  (48 ≤ y && y ≤ 57) ||
  (97 ≤ y && y ≤ 122) ||
  (65 ≤ y && y ≤ 90) ||
  y ∈ ([39, 40, 41, 46, 44, 45, 95, 43, 47, 58, 63, 61] : List Nat)

/-- `Parser::is_multipart_boundary_valid`: RFC 2046 §5.1.1 validation on
the boundary's UTF-8 BYTES — `boundary.len()` is the byte length and the
loop walks `boundary.as_bytes()`, so a multi-byte character counts once
per byte.  On the first disallowed byte the source builds the error text
with `String::from_utf8(vec![byte]).unwrap()`, which panics when that
byte is not ASCII (a lone continuation or lead byte is not valid UTF-8);
the panic is `none` here. -/
def is_multipart_boundary_valid (boundary : String) :
    Option (Except ParseErrorDetails Unit) :=
  let bytes := utf8Bytes boundary.data
  if bytes.length < 1 || 70 < bytes.length then
    some (.error (.ofError .InvalidMultipartBoundaryLength))
  else
    match bytes.find? (fun y => !isBoundaryByteAllowed y) with
    | some bad =>
      if bad < 128 then
        some (.error (.ofError (.InvalidMultipartBoundaryCharacter
          (String.mk [Char.ofNat bad]))))
      else none
    | none => some (.ok ())

/-- The capture of group 2 of the boundary pattern
`multipart/form-data\s*(;\s*boundary\s*=\s*(.+))?` on a content-type
value that starts with `multipart/form-data` (the dispatch in
`parse_body` guarantees the prefix, so the leftmost match starts at 0).
`none` when the optional group does not match, in which case the boundary
is defaulted with a diagnostic. -/
def boundaryCapture (ct : Chars) : Option Chars :=
  let t1 := (ct.drop 19).dropWhile isWS
  match t1 with
  | ';' :: t2 =>
    let t3 := t2.dropWhile isWS
    if hasPrefix "boundary".data t3 then
      match (t3.drop 8).dropWhile isWS with
      | '=' :: t5 =>
        let cap := (t5.dropWhile isWS).takeWhile (· ≠ '\n')
        if cap = [] then none else some cap
      | _ => none
    else none
  | _ => none

/-- Strip one level of surrounding double quotes, as
`boundary[1..(boundary.len() - 1)]`.  (The source would panic on the
one-character string `"`; that case is excluded by the length guard and
never arises in the claims.) -/
def unquote (cs : Chars) : Chars :=
  if 2 ≤ cs.length ∧ cs.head? = some '"' ∧ cs.getLast? = some '"' then
    (cs.drop 1).dropLast
  else cs

/-- `Header`'s display form, used for the `SingleMultipartNameMissing`
message.  Modelled from the spec. -/
def headerToStr (h : Header) : Chars := h.key.data ++ ": ".data ++ h.value.data

/-- The raw-text collection loop of a multipart part: lines are gathered
until a line equals the `--boundary` or `--boundary--` line (a newline is
appended between lines except immediately before a boundary); reaching
the input's end first is fatal. -/
def multipart_text_loop (fuel : Nat) (s : Scanner) (boundaryLine endLine : Chars)
    (text : Chars) : Except ParseErrorDetails Chars × Scanner :=
  match fuel with
  | 0 => (.error (.ofError (.MultipartShouldBeEndedWithBoundary (String.mk endLine))), s)
  | fuel + 1 =>
    match s.peek_line with
    | none => (.error (.ofError (.MultipartShouldBeEndedWithBoundary (String.mk endLine))), s)
    | some pl =>
      if pl = boundaryLine ∨ pl = endLine then (.ok text, s)
      else
        match s.get_line_and_advance with
        | (some next, s1) =>
          let text1 := text ++ next
          let text2 :=
            if (s1.peek_line).elim false (fun pl2 => hasPrefix boundaryLine pl2) then text1
            else text1 ++ ['\n']
          multipart_text_loop fuel s1 boundaryLine endLine text2
        | (none, s1) =>
          (.error (.ofError (.MultipartShouldBeEndedWithBoundary (String.mk endLine))), s1)

/-- The `;`-parameter loop of the Content-Disposition value: each entry
must split on `=` into exactly a key and a value (quotes unwrapped);
`name`, `filename` and `filename*` update the disposition field. -/
def dispositionParams (field : DispositionField) :
    List Chars → Except ParseErrorDetails DispositionField
  | [] => .ok field
  | current :: graph =>
    match (splitOnChar '=' current).map trim with
    | [key, value0] =>
      let value := unquote value0
      let field1 :=
        if key = "filename".data then { field with filename := some (String.mk value) }
        else if key = "filename*".data then { field with filename_star := some (String.mk value) }
        else if key = "name".data then { field with name := String.mk value }
        else field
      dispositionParams field1 graph
    | _ => .error (.ofError (.MalformedContentDispositionEntries (String.mk current)))

/-- `Parser::parse_multipart_part`.  Returns the part (or the fatal
error) together with the non-fatal diagnostics pushed into the shared
`parse_errs` vector.  The opening `match_regex_forward` of the source
returns `Ok(None)` when the boundary line is not at the cursor, so its
`is_err()` test never fires and `MissingMultipartStartingBoundary` is
unreachable; the match is a literal consume-on-success. -/
def parse_multipart_part (s : Scanner) (boundary : Chars) :
    (Except ParseErrorDetails Multipart × List ParseErrorDetails) × Scanner :=
  let boundaryLine := "--".data ++ boundary
  let endLine := boundaryLine ++ "--".data
  let (_, s1) := s.match_str_forward boundaryLine
  let s2 := s1.skip_to_next_line
  let startPos := s2.pos
  match parse_headers s2 with
  | (.error e, s3) =>
    ((.error (.new_with_position (.InvalidSingleMultipartHeaders e.error) (s3.pos, none)), []), s3)
  | (.ok partHeaders, s3) =>
    let endPos := s3.pos
    match partHeaders with
    | [] =>
      ((.error (.new_with_position .MissingSingleMultipartContentDispositionHeader
        (startPos, some endPos)), []), s3)
    | dispositionPart :: restHeaders =>
      if dispositionPart.key ≠ "Content-Disposition" then
        ((.error (.new_with_position
          (.WrongMultipartContentDispositionHeader dispositionPart.key)
          (startPos, some endPos)), []), s3)
      else
        let pieces := splitOnChar ';' dispositionPart.value.data
        let dispositionType := trim ((pieces.head?).getD [])
        if dispositionType ≠ "form-data".data then
          ((.error (.new_with_position
            (.InvalidMultipartContentDispositionFormData (String.mk dispositionType))
            (startPos, some endPos)), []), s3)
        else
          match dispositionParams (DispositionField.new_with_filename "" none) (pieces.drop 1) with
          | .error e => ((.error e, []), s3)
          | .ok field =>
            let nameErrs :=
              if field.name = "" then
                [ParseErrorDetails.new_with_position
                  (.SingleMultipartNameMissing
                    (String.mk (['['] ++ joinWith ", ".data (restHeaders.map headerToStr) ++ [']'])))
                  (startPos, some endPos)]
              else []
            let (mNL, s4) := s3.match_str_forward ['\n']
            if !mNL then
              ((.error (.new_with_position .SingleMultipartMissingEmptyLine (s4.pos, none)),
                nameErrs), s4)
            else
              match s4.peek_line with
              | none =>
                ((.error (.ofError (.MultipartShouldBeEndedWithBoundary (String.mk endLine))),
                  nameErrs), s4)
              | some pl =>
                if hasPrefix ['<'] pl then
                  match s4.get_line_and_advance with
                  | (some line, s5) =>
                    let tline := trim line
                    let filePath := trim (tline.drop 1)
                    ((.ok ⟨field, restHeaders, .FromFilepath (String.mk filePath)⟩, nameErrs), s5)
                  | (none, s5) =>
                    ((.error (.ofError (.MultipartShouldBeEndedWithBoundary (String.mk endLine))),
                      nameErrs), s5)
                else
                  match multipart_text_loop (s4.rest.length + 1) s4 boundaryLine endLine [] with
                  | (.ok text, s5) =>
                    ((.ok ⟨field, restHeaders, .Raw (String.mk text)⟩, nameErrs), s5)
                  | (.error e, s5) => ((.error e, nameErrs), s5)

/-- The part loop of `Parser::parse_multipart_body`.  A failed part parse
pushes its error into a local vector that the source never reads again
and breaks, returning the parts collected so far as a successful
multipart body; after each part either the (escaped, hence never
matching) end-boundary literal or the `--boundary` line must follow. -/
def multipart_body_loop (fuel : Nat) (s : Scanner) (boundary : Chars)
    (parts : List Multipart) (errsAcc : List ParseErrorDetails) :
    (Except ParseErrorDetails RequestBody × List ParseErrorDetails) × Scanner :=
  match fuel with
  | 0 => ((.ok (.Multipart (String.mk boundary) parts), errsAcc), s)
  | fuel + 1 =>
    match parse_multipart_part s boundary with
    | ((.error _, partErrs), s1) =>
      -- the source pushes the error into the dead local `errors` vector
      ((.ok (.Multipart (String.mk boundary) parts), errsAcc ++ partErrs), s1)
    | ((.ok part, partErrs), s1) =>
      let parts1 := parts ++ [part]
      let errs1 := errsAcc ++ partErrs
      if s1.is_done then ((.ok (.Multipart (String.mk boundary) parts1), errs1), s1)
      else
        let endBoundary := regexEscape ("--".data ++ boundary ++ "--".data)
        let (mEnd, s2) := s1.match_str_forward endBoundary
        if mEnd then ((.ok (.Multipart (String.mk boundary) parts1), errs1), s2)
        else
          let nextBoundary := "--".data ++ boundary
          let (mNext, s3) := s2.match_str_forward nextBoundary
          if !mNext then
            ((.error (.new_with_position
              (.MissingMultipartBoundary (String.mk nextBoundary) (String.mk endBoundary))
              (s3.pos, none)), errs1), s3)
          else multipart_body_loop fuel s3 boundary parts1 errs1

/-- `Parser::parse_multipart_body`. -/
def parse_multipart_body (s : Scanner) (boundary : Chars) :
    (Except ParseErrorDetails RequestBody × List ParseErrorDetails) × Scanner :=
  let s1 := s.skip_empty_lines
  multipart_body_loop (s1.rest.length + 1) s1 boundary [] []

/-- `Parser::parse_content_type_multipart_form_data`.  Returns the body
(`none` when multipart parsing failed fatally) and the diagnostics pushed
into `parse_errs`, in push order.  When boundary validation hits a
non-ASCII offending byte the source program panics in
`is_multipart_boundary_valid` and never reaches this point; this total
embedding of the driver records no diagnostic in that case (the panic
itself is observable on `is_multipart_boundary_valid` directly). -/
def parse_content_type_multipart_form_data (s : Scanner) (contentType : String) :
    (Option RequestBody × List ParseErrorDetails) × Scanner :=
  let capture := boundaryCapture contentType.data
  let boundaryErrs :=
    match capture with
    | none =>
      [ParseErrorDetails.new_with_position
        (.MissingMultipartHeaderBoundaryDefinition (String.mk DEFAULT_MULTIPART_BOUNDARY))
        (s.pos, none)]
    | some _ => []
  let boundary := unquote ((capture).getD DEFAULT_MULTIPART_BOUNDARY)
  let validityErrs :=
    match is_multipart_boundary_valid (String.mk boundary) with
    | some (.error e) => [e]
    | _ => []
  match parse_multipart_body s boundary with
  | ((.ok body, bodyErrs), s1) => ((some body, boundaryErrs ++ validityErrs ++ bodyErrs), s1)
  | ((.error e, bodyErrs), s1) =>
    ((none, boundaryErrs ++ validityErrs ++ bodyErrs ++ [e]), s1)

/-- `Parser::parse_body`: dispatch on the first `Content-Type` header. -/
def parse_body (s : Scanner) (headers : List Header) :
    Except (RequestBody × List ParseErrorDetails) RequestBody × Scanner :=
  let contentType := (headers.find? (fun h => h.key = "Content-Type")).map (·.value)
  let (body, parseErrs, s1) :=
    match contentType with
    | some ct =>
      if hasPrefix "multipart/form-data".data ct.data then
        let ((bodyOpt, errs), s1) := parse_content_type_multipart_form_data s ct
        (bodyOpt.getD .None, errs, s1)
      else if ct = "application/x-www-form-urlencoded" then
        let (body, s1) := parse_body_urlencoded s
        (body, [], s1)
      else
        let (body, s1) := parse_raw_body s
        -- a present Content-Type turns an absent body into an explicit empty one
        (if body = RequestBody.None then RequestBody.Raw (.Raw "") else body, [], s1)
    | none =>
      let (body, s1) := parse_raw_body s
      (body, [], s1)
  if parseErrs.isEmpty then (.ok body, s1) else (.error (body, parseErrs), s1)

/-- `Parser::parse_response_handler`. -/
def parse_response_handler (s : Scanner) :
    Except ParseErrorDetails (Option ResponseHandler) × Scanner :=
  let s1 := s.skip_empty_lines.skip_ws
  match s1.peek_n 2 with
  | none => (.ok none, s1)
  | some twoChars =>
    match twoChars with
    | [c0, c1] =>
      if c0 ≠ '>' ∨ c1 = '>' then (.ok none, s1)
      else
        let (took, s2) := s1.take '>'
        if !took then (.ok none, s1)
        else
          let s3 := s2.skip_ws.skip_empty_lines
          let startPos := s3.pos
          let (m, s4) := s3.match_str_forward [lbrace, '%']
          if m then
            match scriptLinesLoop (s4.rest.length + 1) s4 [] with
            | (lines, true, s5) =>
              (.ok (some (.Script (String.mk (joinWith ['\n'] lines)))), s5.skip_to_next_line)
            | (_, false, s5) =>
              (.error (.new_with_position .MissingResponseHandlerClose (startPos, some s5.pos)), s5)
          else
            match s4.get_line_and_advance with
            | (some path, s5) =>
              if path = [] then
                (.error (.new_with_position .MissingResponseHandlerClose (s5.pos, none)), s5)
              else (.ok (some (.FromFilepath (String.mk (trim path)))), s5)
            | (none, s5) =>
              (.error (.new_with_position .MissingResponseHandlerClose (s5.pos, none)), s5)
    | _ => (.ok none, s1)

/-- `Parser::parse_redirect`. -/
def parse_redirect (s : Scanner) : Except ParseErrorDetails (Option SaveResponse) × Scanner :=
  let s1 := s.skip_empty_lines
  let startPos := s1.pos
  let (m, s2) := s1.match_str_forward ['>', '>']
  if !m then (.ok none, s1)
  else
    let (bang, s3) := s2.take '!'
    match s3.get_line_and_advance with
    | (none, s4) =>
      (.error (.new_with_position .MissingResponseOutputPath (startPos, some s4.pos)), s4)
    | (some path, s4) =>
      let p := String.mk (trim path)
      if bang then (.ok (some (.RewriteFile p)), s4)
      else (.ok (some (.NewFileIfExists p)), s4)

end Parser

end HttpRestFile

namespace HttpRestFile

namespace Parser

/-- Word characters for the `\w` class (ASCII model). -/
def isWordChar (c : Char) : Bool := c.isAlphanum || c = '_'

/-- Rust `str::replace`: replace every (leftmost, non-overlapping)
occurrence of `pat` by `rep`.  An empty pattern leaves the text unchanged
(never used with one). -/
def replaceAllAux (pat rep : Chars) : Nat → Chars → Chars
  | 0, s => s
  | _ + 1, [] => []
  | fuel + 1, c :: cs =>
    if pat ≠ [] ∧ hasPrefix pat (c :: cs) then
      rep ++ replaceAllAux pat rep fuel ((c :: cs).drop pat.length)
    else c :: replaceAllAux pat rep fuel cs

def replaceAll (pat rep : Chars) (s : Chars) : Chars := replaceAllAux pat rep (s.length + 1) s

/-- Try the placeholder pattern `\{\{(\w+)\}\}` anchored at the start of
`cs`; on success return the captured identifier and the text after the
match. -/
def tryHandleBars (cs : Chars) : Option (Chars × Chars) :=
  match cs with
  | c1 :: c2 :: t =>
    if c1 = lbrace ∧ c2 = lbrace then
      let name := t.takeWhile isWordChar
      if name = [] then none
      else
        match t.drop name.length with
        | d1 :: d2 :: t2 => if d1 = rbrace ∧ d2 = rbrace then some (name, t2) else none
        | _ => none
    else none
  | _ => none

/-- `captures_iter` of the placeholder pattern over a text: leftmost,
non-overlapping matches, each yielding its captured identifier.  The fuel
equals the text length plus one, which always suffices: every step moves
to a strictly shorter suffix (the tail on a failed match, the text after
the match — at least four characters in — on a successful one). -/
def handleBarsCapturesAux : Nat → Chars → List Chars
  | 0, _ => []
  | _ + 1, [] => []
  | fuel + 1, c :: t =>
    match tryHandleBars (c :: t) with
    | some (name, r) => name :: handleBarsCapturesAux fuel r
    | none => handleBarsCapturesAux fuel t

def handleBarsCaptures (cs : Chars) : List Chars := handleBarsCapturesAux (cs.length + 1) cs

/-- Try the variable-set pattern
`request\.variables\.set."(?<key>\w+)", "(?<value>\w+)"` anchored at the
start of `cs` (the `.` after `set` matches any character but a newline);
on success return the two captures and the text after the match. -/
def tryVarSet (cs : Chars) : Option ((Chars × Chars) × Chars) :=
  if hasPrefix "request.variables.set".data cs then
    match cs.drop 21 with
    | cAny :: t1 =>
      if cAny = '\n' then none
      else
        match t1 with
        | '"' :: t2 =>
          let key := t2.takeWhile isWordChar
          if key = [] then none
          else
            match t2.drop key.length with
            | '"' :: ',' :: ' ' :: '"' :: t3 =>
              let value := t3.takeWhile isWordChar
              if value = [] then none
              else
                match t3.drop value.length with
                | '"' :: t4 => some ((key, value), t4)
                | _ => none
            | _ => none
        | _ => none
    | [] => none
  else none

/-- `captures_iter` of the variable-set pattern: leftmost,
non-overlapping matches.  As with `handleBarsCapturesAux`, the fuel
always suffices because every step moves to a strictly shorter suffix. -/
def varSetCapturesAux : Nat → Chars → List (Chars × Chars)
  | 0, _ => []
  | _ + 1, [] => []
  | fuel + 1, c :: t =>
    match tryVarSet (c :: t) with
    | some (kv, r) => kv :: varSetCapturesAux fuel r
    | none => varSetCapturesAux fuel t

def varSetCaptures (cs : Chars) : List (Chars × Chars) := varSetCapturesAux (cs.length + 1) cs

namespace HttpRestFile

namespace Parser

/-- Insert-if-absent into the key→value association list, the
`HashMap::entry(k).or_insert(v)` of the capture loop: the first
occurrence of a key wins. -/
def insertIfAbsent (m : List (Chars × Chars)) (k v : Chars) : List (Chars × Chars) :=
  if m.any (fun p => p.1 = k) then m else m ++ [(k, v)]

def lookupKV (m : List (Chars × Chars)) (k : Chars) : Option Chars :=
  (m.find? (fun p => p.1 = k)).map (·.2)

/-- The key→value map extracted from the pre-request script by the
`VAR_SET` capture loop. -/
def varSetMap (script : Chars) : List (Chars × Chars) :=
  (varSetCaptures script).foldl (fun m kv => insertIfAbsent m kv.1 kv.2) []

/-- One step of the placeholder loop: if the captured identifier is in
the map, the identifier's text is replaced by the value everywhere in the
accumulated target, and then every brace character is removed from it. -/
def substituteStep (kv : List (Chars × Chars)) (uri : Chars) (name : Chars) : Chars :=
  match lookupKV kv name with
  | some v => replaceAll [rbrace] [] (replaceAll [lbrace] [] (replaceAll name v uri))
  | none => uri

/-- The placeholder-substitution block of `Parser::parse_request`
(executed when the pre-request script text contains
`request.variables.set`): extract the key→value map from the script, then
fold the substitution step over the placeholder captures of the original
target; only an `Absolute` target is rewritten. -/
def substituteTargetVariables (script : Chars) (rl : RequestLine) : RequestLine :=
  let kv := varSetMap script
  match rl.target with
  | .Absolute uri =>
    let newUri := (handleBarsCaptures uri.data).foldl (substituteStep kv) uri.data
    { rl with target := .Absolute (String.mk newUri) }
  | _ => rl

/-- The state accumulated by the directive loop of
`Parser::parse_request`. -/
structure DirectiveState where
  comments : List Comment
  name : Option String
  parse_errs : List ParseErrorDetails
  settings : RequestSettings
  pre_request_script : Option PreRequestScript

/-- The directive loop of `Parser::parse_request` (§4.3 stage 1):
pre-request script marker, then meta directive, then plain comment;
anything else stops the loop.  A failed pre-request script parse is
discarded by the `if let Ok` of the source.  The fuel is the remaining
length plus one, which suffices since every continuing iteration
consumes at least one character. -/
def directiveLoop : Nat → Scanner → DirectiveState → DirectiveState × Scanner
  | 0, s, st => (st, s)
  | fuel + 1, s, st =>
    if s.peek = some '<' then
      match parse_pre_request_script s with
      | (.ok result, s1) => directiveLoop fuel s1 { st with pre_request_script := result }
      | (.error _, s1) => directiveLoop fuel s1 st
    else
      let (metaRes, s1) := parse_meta_comment_line s
      match metaRes with
      | some (.ok (.NameEntry entryName)) =>
        let st1 := if entryName ≠ "" then { st with name := some entryName } else st
        directiveLoop fuel s1 st1
      | some (.ok entry) =>
        directiveLoop fuel s1 { st with settings := st.settings.set_entry entry }
      | other =>
        let st1 :=
          match other with
          | some (.error pe) => { st with parse_errs := st.parse_errs ++ [pe] }
          | _ => st
        match parse_comment s1 with
        | (.ok (some c), s2) => directiveLoop fuel s2 { st1 with comments := st1.comments ++ [c] }
        | (.ok none, s2) => (st1, s2)
        | (.error pe, s2) => ({ st1 with parse_errs := st1.parse_errs ++ [pe] }, s2)

/-- Promote the first `###`-dialect comment to the request name
(§4.3 stage 2): the comment is removed; a nonempty trimmed value becomes
the name. -/
def promoteSeparatorComment (name : Option String) (comments : List Comment) :
    Option String × List Comment :=
  match name with
  | some n => (some n, comments)
  | none =>
    match comments.findIdx? (fun c => c.kind = .RequestSeparator) with
    | none => (none, comments)
    | some i =>
      let c := (comments.get? i).getD ⟨"", .RequestSeparator⟩
      let comments1 := comments.eraseIdx i
      let t := trim c.value.data
      (if t ≠ [] then some (String.mk t) else none, comments1)

/-- Promote the first comment without an `@` to the request name
(§4.3 stage 9); the raw comment value becomes the name. -/
def promotePlainComment (name : Option String) (comments : List Comment) :
    Option String × List Comment :=
  match name with
  | some n => (some n, comments)
  | none =>
    if comments.isEmpty then (none, comments)
    else
      match comments.findIdx? (fun c => !containsChar '@' c.value.data) with
      | none => (none, comments)
      | some i =>
        let c := (comments.get? i).getD ⟨"", .RequestSeparator⟩
        (some c.value, comments.eraseIdx i)

/-- `Parser::parse_request`: the single-request driver (§4.3). -/
def parse_request (s : Scanner) : Except ErrorWithPartial Request × Scanner :=
  let s0 := s.skip_empty_lines
  let st0 : DirectiveState := ⟨[], none, [], RequestSettings.default, none⟩
  let (st, s1) := directiveLoop (s0.rest.length + 1) s0 st0
  if s1.is_done then
    let errs := st.parse_errs ++
      [⟨.MissingRequestTargetLine, none, some s1.pos, none⟩]
    (.error ⟨⟨st.name, st.comments, st.settings, none, none, none,
      st.pre_request_script, none, none⟩, errs⟩, s1)
  else
    let (name1, comments1) := promoteSeparatorComment st.name st.comments
    let (requestLine, parseErrs1, s2) :=
      match parse_request_line s1 with
      | (.ok (rl, rlErrs), s2) =>
        let rl1 :=
          if (st.pre_request_script.map (fun (prs : PreRequestScript) =>
                containsSub "request.variables.set".data prs.toStr.data)).getD false then
            match st.pre_request_script with
            | some prs => substituteTargetVariables prs.toStr.data rl
            | none => rl
          else rl
        (some rl1, st.parse_errs ++ rlErrs, s2)
      | (.error pe, s2) => (none, st.parse_errs ++ [pe], s2)
    -- end-of-request check: a separator right after the request line
    if (s2.peek_line.map (fun l => hasPrefix REQUEST_SEPARATOR (trim l))).getD false then
      match requestLine with
      | some rl =>
        (.ok ⟨name1, comments1, rl, [], .None, st.settings,
          st.pre_request_script, none, none⟩, s2)
      | none =>
        (.error ⟨⟨name1, comments1, st.settings, none, none, none,
          none, none, none⟩, parseErrs1⟩, s2)
    else
      match parse_headers s2 with
      | (.error pe, s3) =>
        (.error ⟨⟨name1, comments1, st.settings, requestLine, none, none,
          st.pre_request_script, none, none⟩, parseErrs1 ++ [pe]⟩, s3)
      | (.ok headers, s3) =>
        let s4 := s3.skip_empty_lines
        let (body, bodyErrs, s5) :=
          match parse_body s4 headers with
          | (.ok body, s5) => (body, [], s5)
          | (.error (body, errs), s5) => (body, errs, s5)
        let parseErrs2 := parseErrs1 ++ bodyErrs
        match parse_response_handler s5 with
        | (.error pe, s6) =>
          (.error ⟨⟨name1, comments1, st.settings, requestLine, some headers, some body,
            st.pre_request_script, none, none⟩, parseErrs2 ++ [pe]⟩, s6)
        | (.ok responseHandler, s6) =>
          let s7 := s6.skip_empty_lines
          match parse_redirect s7 with
          | (.error pe, s8) =>
            (.error ⟨⟨name1, comments1, st.settings, requestLine, some headers, some body,
              st.pre_request_script, responseHandler, none⟩, parseErrs2 ++ [pe]⟩, s8)
          | (.ok saveResponse, s8) =>
            let s9 := s8.skip_empty_lines
            if parseErrs2 ≠ [] then
              (.error ⟨⟨name1, comments1, st.settings, requestLine, some headers, some body,
                st.pre_request_script, responseHandler, saveResponse⟩, parseErrs2⟩, s9)
            else
              match requestLine with
              | some rl =>
                let (name2, comments2) := promotePlainComment name1 comments1
                (.ok ⟨name2, comments2, rl, headers, body, st.settings,
                  st.pre_request_script, responseHandler, saveResponse⟩, s9)
              | none =>
                -- unreachable: a missing request line was recorded in parseErrs1
                (.error ⟨⟨name1, comments1, st.settings, none, some headers, some body,
                  st.pre_request_script, responseHandler, saveResponse⟩, parseErrs2⟩, s9)

/-- Skip forward to the next line starting (after leading whitespace)
with the request separator, the driver's resynchronisation. -/
def skipToSeparatorAux : Nat → Scanner → Scanner
  | 0, s => s
  | fuel + 1, s =>
    match s.peek_line with
    | none => s
    | some l =>
      if hasPrefix REQUEST_SEPARATOR (trimStart l) then s
      else skipToSeparatorAux fuel s.skip_to_next_line

def skip_to_separator (s : Scanner) : Scanner := skipToSeparatorAux (s.rest.length + 1) s

/-- The request loop of `Parser::parse`.  Each iteration parses one
request and resynchronises at the next separator; the fuel (input length
plus one) always suffices since every iteration consumes input. -/
def parseLoop : Nat → Scanner → List Request → List ErrorWithPartial →
    FileParseResult × Scanner
  | 0, s, requests, errs => (⟨requests, errs⟩, s)
  | fuel + 1, s, requests, errs =>
    let s1 := s.skip_empty_lines_and_ws
    if s1.is_done then (⟨requests, errs⟩, s1)
    else
      let (result, s2) := parse_request s1
      let (requests1, errs1) :=
        match result with
        | .ok r => (requests ++ [r], errs)
        | .error e => (requests, errs ++ [e])
      let s3 := s2.skip_empty_lines.skip_ws
      if s3.is_done then (⟨requests1, errs1⟩, s3)
      else
        let s4 := (skip_to_separator s3).skip_empty_lines.skip_ws
        if s4.is_done then (⟨requests1, errs1⟩, s4)
        else parseLoop fuel s4 requests1 errs1

/-- `Parser::parse`: parse a whole request file into successful requests
and failure records.  (The `print_errors` flag of the source only prints
diagnostics and does not affect the result.) -/
def parse (string : String) : FileParseResult :=
  (parseLoop (string.data.length + 1) (Scanner.new string) [] []).1

end Parser

end HttpRestFile

namespace HttpRestFile

set_option maxRecDepth 40000

/-- The diagnostic kinds of a request parse, `none` when the request
succeeded (a successful `Request` carries no diagnostics). -/
def requestErrorKinds (r : Except ErrorWithPartial Request) : Option (List ParseError) :=
  match r with
  | .ok _ => none
  | .error e => some (e.details.map (fun d => d.error))

/-- The body of a successful request parse. -/
def requestOkBody (r : Except ErrorWithPartial Request) : Option RequestBody :=
  match r with
  | .ok req => some req.body
  | .error _ => none

/-- The body recorded in the partial request of a failed parse. -/
def partialBody (r : Except ErrorWithPartial Request) : Option RequestBody :=
  match r with
  | .ok _ => none
  | .error e => e.partial_request.body

/-- The request line recorded in the partial request of a failed parse. -/
def partialRequestLine (r : Except ErrorWithPartial Request) : Option RequestLine :=
  match r with
  | .ok _ => none
  | .error e => e.partial_request.request_line

/-- The error kind of a failed multipart-part parse. -/
def partErrorKind (x : Except ParseErrorDetails Multipart) : Option ParseError :=
  match x with
  | .ok _ => none
  | .error e => some e.error

/-- The body of a successful multipart-body parse. -/
def multipartBodyOf (x : Except ParseErrorDetails RequestBody) : Option RequestBody :=
  match x with
  | .ok b => some b
  | .error _ => none

/-- The diagnostic of a failed pre-request-script parse. -/
def scriptErrorOf (x : Except ParseErrorDetails (Option PreRequestScript)) :
    Option ParseErrorDetails :=
  match x with
  | .ok _ => none
  | .error e => some e

/-- The request line of a request-line parse, discarding diagnostics and
positions. -/
def requestLineOf (x : Except ParseErrorDetails (RequestLine × List ParseErrorDetails)) :
    Option RequestLine :=
  match x with
  | .ok (rl, _) => some rl
  | .error _ => none

/-- Three separator-delimited requests where the second is the spec's own
malformed example: a multipart body missing its closing boundary. -/
def inputC1 : String :=
  "GET http://a.com/1\n###\nPOST http://b.com/2\nContent-Type: multipart/form-data; boundary=B\n\n--B\nContent-Disposition: form-data; name=\"f\"\n\ncontent\n###\nGET http://c.com/3\n"

/-- Three separator-delimited requests where the second holds an invalid
header line, a fatal diagnostic that does propagate out of
`parse_request`. -/
def inputC1amended : String :=
  "GET http://a.com/1\n###\nPOST http://b.com/2\nBadHeaderNoColon\n###\nGET http://c.com/3\n"

/-- C1: the claim is FALSE for the spec's own example.  For `inputC1`
(request 2 is a multipart body missing its closing boundary) the claim
predicts exactly two successful requests — the first and the third — and
exactly one failure record.  Instead the failed part parse is dropped
inside `parse_multipart_body` (its error goes into a local vector that is
never read), request 2 is returned as a bogus success with an empty
multipart body after its part's text collection consumed the remaining
input (including all of request 3), and there is no failure record at
all. -/
theorem C1_counterexample :
    (Parser.parse inputC1).errs = [] ∧
    (Parser.parse inputC1).requests.map (fun r => r.request_line.target) =
      [.Absolute "http://a.com/1", .Absolute "http://b.com/2"] := by
  constructor <;> decide

/-- C1 (amended): when the second request's fatal diagnostic propagates
out of `parse_request` — here an invalid header line — the driver records
one failure, resynchronises at the next separator line and parses the
third request independently: the parse returns exactly the first and
third requests, each equal to its standalone parse, plus one failure
record carrying the invalid-header diagnostic. -/
theorem C1_amended_theorem :
    (Parser.parse inputC1amended).requests =
      (Parser.parse "GET http://a.com/1\n").requests ++
      (Parser.parse "GET http://c.com/3\n").requests ∧
    (Parser.parse inputC1amended).errs.map (fun e => e.details.map (fun d => d.error)) =
      [[.InvalidHeaderField "BadHeaderNoColon"]] := by
  constructor <;> decide

/-- A single request whose only diagnostic is non-fatal: the multipart
Content-Type lacks `boundary=`, so the fixed default boundary is used and
one `MissingMultipartHeaderBoundaryDefinition` diagnostic is recorded;
the body then parses completely against the default boundary. -/
def inputC2 : String :=
  "POST http://b.com/x\nContent-Type: multipart/form-data\n\n----boundary--\nContent-Disposition: form-data; name=\"f\"\n\ncontent\n----boundary----\n"

/-- C2: the claim is FALSE.  For `inputC2` the only diagnostic produced
is the non-fatal `MissingMultipartHeaderBoundaryDefinition`, yet
`parse_request` returns a `PartialRequest` failure record, not a
successful `Request`: any non-empty diagnostics list makes
`parse_request` return `Err`. -/
theorem C2_counterexample :
    requestErrorKinds (Parser.parse_request (Scanner.new inputC2)).1 =
      some [.MissingMultipartHeaderBoundaryDefinition "--boundary--"] := by
  decide

/-- C2 (amended): non-fatal diagnostics do cause the request to be
returned as a `PartialRequest` failure record — `parse_request` returns
`Ok` only when no diagnostic at all was recorded.  The partial request
still carries every successfully parsed field: the request line and the
multipart body parsed against the fixed default boundary. -/
theorem C2_amended_theorem :
    partialRequestLine (Parser.parse_request (Scanner.new inputC2)).1 =
      some ⟨.Some "POST", .Absolute "http://b.com/x", .Default⟩ ∧
    partialBody (Parser.parse_request (Scanner.new inputC2)).1 =
      some (.Multipart "--boundary--" [⟨⟨"f", none, none⟩, [], .Raw "content"⟩]) ∧
    requestErrorKinds (Parser.parse_request (Scanner.new inputC2)).1 =
      some [.MissingMultipartHeaderBoundaryDefinition "--boundary--"] := by
  refine ⟨?_, ?_, ?_⟩ <;> decide

/-- A request whose multipart part's first header is not
Content-Disposition. -/
def inputC3 : String :=
  "POST http://b.com/x\nContent-Type: multipart/form-data; boundary=B\n\n--B\nX-Foo: bar\n\ncontent\n--B--\n"

/-- C3: the claim is FALSE.  For `inputC3` (the part's first header is
`X-Foo`, not `Content-Disposition`) the claim predicts a fatal failure
with a `WrongMultipartContentDispositionHeader` diagnostic; instead
`parse_request` returns a successful request — carrying no diagnostics at
all — whose multipart body simply has no parts, because
`parse_multipart_body` pushes the part's error into a local vector it
never reads and breaks. -/
theorem C3_counterexample :
    requestErrorKinds (Parser.parse_request (Scanner.new inputC3)).1 = none ∧
    requestOkBody (Parser.parse_request (Scanner.new inputC3)).1 =
      some (.Multipart "B" []) := by
  constructor <;> decide

/-- C3 (amended): `parse_multipart_part` itself does fail fatally with
the three distinct diagnostics — `MissingSingleMultipartContentDispositionHeader`
for an empty header section, `WrongMultipartContentDispositionHeader` for
a wrong first header, `InvalidMultipartContentDispositionFormData` for a
primary value other than `form-data` — but `parse_multipart_body` drops
the failed part's error: the multipart body parse succeeds with the parts
collected so far and the diagnostic never reaches the request's
diagnostics. -/
theorem C3_amended_theorem :
    partErrorKind (Parser.parse_multipart_part
        (Scanner.new "--B\n\ncontent\n--B--\n") "B".data).1.1 =
      some .MissingSingleMultipartContentDispositionHeader ∧
    partErrorKind (Parser.parse_multipart_part
        (Scanner.new "--B\nX-Foo: bar\n\ncontent\n--B--\n") "B".data).1.1 =
      some (.WrongMultipartContentDispositionHeader "X-Foo") ∧
    partErrorKind (Parser.parse_multipart_part
        (Scanner.new "--B\nContent-Disposition: attachment; name=\"f\"\n\ncontent\n--B--\n")
        "B".data).1.1 =
      some (.InvalidMultipartContentDispositionFormData "attachment") ∧
    multipartBodyOf (Parser.parse_multipart_body
        (Scanner.new "--B\nX-Foo: bar\n\ncontent\n--B--\n") "B".data).1.1 =
      some (.Multipart "B" []) := by
  refine ⟨?_, ?_, ?_, ?_⟩ <;> decide

/-- A pre-request script opened with `<` and `\x7b%` whose close marker
`%\x7d` never occurs before the input ends. -/
def inputC4 : String := "< \x7b%\nlet x = 1\n"

/-- C4: the claim is FALSE.  For `inputC4` the request does fail fatally,
but its diagnostics list is exactly `[MissingRequestTargetLine]` — the
`MissingPreRequestScriptClose` diagnostic never appears, because
`parse_request` discards the script parser's error (`if let Ok(result)`).
-/
theorem C4_counterexample :
    requestErrorKinds (Parser.parse_request (Scanner.new inputC4)).1 =
      some [.MissingRequestTargetLine] ∧
    ParseError.MissingPreRequestScriptClose ∉ [ParseError.MissingRequestTargetLine] := by
  constructor <;> decide

/-- C4 (amended): `parse_pre_request_script` itself fails with
`MissingPreRequestScriptClose`, but `parse_request` discards that error;
since the failed script parse consumed the whole input, the request then
fails fatally with `MissingRequestTargetLine` instead. -/
theorem C4_amended_theorem :
    scriptErrorOf (Parser.parse_pre_request_script (Scanner.new inputC4)).1 =
      some ⟨.MissingPreRequestScriptClose, none, some 1, some 15⟩ ∧
    requestErrorKinds (Parser.parse_request (Scanner.new inputC4)).1 =
      some [.MissingRequestTargetLine] := by
  constructor <;> decide

end HttpRestFile

namespace HttpRestFile

/-- The boundary alphabet as the claim words it: alphanumerics plus
`' ( ) + , - . / : = ?` — without the underscore. -/
def boundaryAlphabetClaimed (c : Char) : Bool :=
  c.isAlphanum || c ∈ (['\'', '(', ')', '+', ',', '-', '.', '/', ':', '=', '?'] : List Char)

/-- C6: the claim is FALSE.  The one-byte boundary `_` is accepted by
`is_multipart_boundary_valid`, yet the underscore is outside the claim's
alphabet (alphanumerics plus `' ( ) + , - . / : = ?`); and the length is
measured in UTF-8 bytes, not characters: 36 copies of `é` are 36
characters but 72 bytes, so the source reports
`InvalidMultipartBoundaryLength` where the claim's character reading of
"length between 1 and 70" predicts a character error. -/
theorem C6_counterexample :
    Parser.is_multipart_boundary_valid "_" = some (.ok ()) ∧
    boundaryAlphabetClaimed '_' = false ∧
    Parser.is_multipart_boundary_valid (String.mk (List.replicate 36 'é')) =
      some (.error (.ofError .InvalidMultipartBoundaryLength)) ∧
    (List.replicate 36 'é').length ≤ 70 :=
  ⟨rfl, by decide, rfl, by decide⟩

/-- C6 (amended): `is_multipart_boundary_valid` validates the boundary's
UTF-8 bytes: it returns `Ok` exactly when the BYTE length is between 1
and 70 and every byte is allowed; a byte length outside 1..=70 yields
`InvalidMultipartBoundaryLength`; otherwise the first disallowed byte
yields `InvalidMultipartBoundaryCharacter` naming that one-byte string
when the byte is ASCII, and panics the source program (modelled `none`)
when it is not; on ASCII bytes the allowed set is exactly the claim's
alphabet extended with the underscore. -/
theorem C6_amended_theorem (b : String) :
    (Parser.is_multipart_boundary_valid b = some (.ok ()) ↔
      (1 ≤ (Parser.utf8Bytes b.data).length ∧ (Parser.utf8Bytes b.data).length ≤ 70 ∧
        ∀ y ∈ Parser.utf8Bytes b.data, Parser.isBoundaryByteAllowed y = true)) ∧
    ((Parser.utf8Bytes b.data).length < 1 ∨ 70 < (Parser.utf8Bytes b.data).length →
      Parser.is_multipart_boundary_valid b =
        some (.error (.ofError .InvalidMultipartBoundaryLength))) ∧
    (∀ bad,
      (Parser.utf8Bytes b.data).find? (fun y => !Parser.isBoundaryByteAllowed y) = some bad →
      1 ≤ (Parser.utf8Bytes b.data).length → (Parser.utf8Bytes b.data).length ≤ 70 →
      Parser.is_multipart_boundary_valid b =
        (if bad < 128 then
          some (.error (.ofError (.InvalidMultipartBoundaryCharacter
            (String.mk [Char.ofNat bad]))))
         else none)) ∧
    (∀ y < 128, Parser.isBoundaryByteAllowed y =
      (boundaryAlphabetClaimed (Char.ofNat y) || decide (Char.ofNat y = '_'))) := by
  refine ⟨?_, ?_, ?_, by decide⟩
  · by_cases hlen : ((Parser.utf8Bytes b.data).length < 1 ||
        70 < (Parser.utf8Bytes b.data).length) = true
    · rw [Parser.is_multipart_boundary_valid, if_pos hlen]
      simp only [Bool.or_eq_true, decide_eq_true_eq] at hlen
      constructor
      · intro hres
        exact absurd hres (by simp)
      · rintro ⟨h1, h2, -⟩
        exact (by omega : False).elim
    · rw [Parser.is_multipart_boundary_valid, if_neg hlen]
      simp only [Bool.or_eq_true, decide_eq_true_eq, not_or, not_lt] at hlen
      rcases hf : (Parser.utf8Bytes b.data).find?
          (fun y => !Parser.isBoundaryByteAllowed y) with _ | bad
      · constructor
        · intro _
          refine ⟨by omega, by omega, ?_⟩
          intro y hy
          have := List.find?_eq_none.mp hf y hy
          simpa using this
        · intro _
          rfl
      · constructor
        · intro hres
          by_cases hb : bad < 128 <;> simp [hb] at hres
        · rintro ⟨-, -, hall⟩
          have hmem := List.mem_of_find?_eq_some hf
          have hbad := List.find?_some hf
          have := hall bad hmem
          simp [this] at hbad
  · intro h
    rw [Parser.is_multipart_boundary_valid, if_pos (by simpa using h)]
  · intro bad hf h1 h2
    rw [Parser.is_multipart_boundary_valid,
      if_neg (by simp only [Bool.or_eq_true, decide_eq_true_eq, not_or, not_lt]; omega), hf]

/-- Witness for `C6_amended_theorem`: the boundary `ab_+` — which holds
an underscore — is valid. -/
theorem C6_amended_theorem_witness :
    Parser.is_multipart_boundary_valid "ab_+" = some (.ok ()) :=
  ( C6_amended_theorem "ab_+").1.mpr (by decide)

end HttpRestFile

namespace HttpRestFile

/-- A request with a qualifying pre-request script that sets only the
variable `a`, and an Absolute target holding the placeholders `(a)` and
`(b)` (written with double braces in the input). -/
def inputC10 : String :=
  "### Request\n< \x7b% request.variables.set(\"a\", \"1\") %\x7d\nGET https://x/\x7b\x7ba\x7d\x7d/\x7b\x7bb\x7d\x7d\n"

/-- C10: the claim is FALSE.  In `inputC10` the identifier `b` is not in
the extracted map, so the claim predicts the placeholder around `b` is
left completely untouched, braces included — the target should become
`https://x/1/(b)` with `b`'s braces intact.  Instead the substitution of
`a` replaces the identifier text globally and then strips every brace
character from the whole target, leaving `https://x/1/b`. -/
theorem C10_counterexample :
    (Parser.parse inputC10).requests.map (fun r => r.request_line.target) =
      [.Absolute "https://x/1/b"] ∧
    RequestTarget.Absolute "https://x/1/b" ≠
      RequestTarget.Absolute "https://x/1/\x7b\x7bb\x7d\x7d" := by
  constructor <;> decide

/-- Folding the substitution step over identifiers none of which are in
the map leaves the target unchanged. -/
theorem foldl_substituteStep_id (kv : List (Chars × Chars)) :
    ∀ (names : List Chars) (u : Chars),
      (∀ n ∈ names, Parser.lookupKV kv n = none) →
      names.foldl (Parser.substituteStep kv) u = u := by
  intro names
  induction names with
  | nil => intro u _; rfl
  | cons n ns ih =>
    intro u h
    have hstep : Parser.substituteStep kv u n = u := by
      unfold Parser.substituteStep
      rw [h n (List.mem_cons_self _ _)]
    simp only [List.foldl_cons, hstep]
    exact ih u (fun m hm => h m (List.mem_cons_of_mem _ hm))

/-- C10 (amended): when no placeholder identifier of the target is in the
extracted map, the target is left completely unchanged; but as soon as
one identifier is in the map, its replacement is a global textual
replacement of the identifier followed by the removal of every brace
character from the target, so placeholders whose identifiers are not in
the map lose their braces too (concretely, `a ↦ 1` turns
`https://x/((a))/((b))` into `https://x/1/b`). -/
theorem C10_amended_theorem :
    (∀ (script : Chars) (rl : RequestLine) (uri : String),
      rl.target = .Absolute uri →
      (∀ n ∈ Parser.handleBarsCaptures uri.data,
        Parser.lookupKV (Parser.varSetMap script) n = none) →
      Parser.substituteTargetVariables script rl = rl) ∧
    Parser.substituteTargetVariables "request.variables.set(\"a\", \"1\")".data
        ⟨.Default, .Absolute "https://x/\x7b\x7ba\x7d\x7d/\x7b\x7bb\x7d\x7d", .Default⟩ =
      ⟨.Default, .Absolute "https://x/1/b", .Default⟩ := by
  constructor
  · intro script rl uri htgt hnone
    rcases rl with ⟨method, target, version⟩
    simp only at htgt
    subst htgt
    simp only [Parser.substituteTargetVariables]
    rw [foldl_substituteStep_id _ _ _ hnone]
  · decide

/-- Witness for `C10_amended_theorem`: a script with no variable-set call
leaves a placeholder-bearing target untouched. -/
theorem C10_amended_theorem_witness :
    Parser.substituteTargetVariables "const x = 1;".data
        ⟨.Default, .Absolute "u/\x7b\x7bz\x7d\x7d", .Default⟩ =
      ⟨.Default, .Absolute "u/\x7b\x7bz\x7d\x7d", .Default⟩ :=
  C10_amended_theorem.1 _ _ _ rfl (by decide)

end HttpRestFile

namespace HttpRestFile

theorem takeWhile_append_of_not_mem (c : Char) (A B : Chars) (h : c ∉ A) :
    (A ++ c :: B).takeWhile (· ≠ c) = A := by
  induction A with
  | nil => simp [List.takeWhile]
  | cons a as ih =>
    have ha : a ≠ c := fun he => h (he ▸ List.mem_cons_self a as)
    have hm : c ∉ as := fun hm => h (List.mem_cons_of_mem a hm)
    rw [List.cons_append, List.takeWhile_cons, if_pos (by simpa using ha), ih hm]

theorem skipLineAux_append (A B l : Chars) (h : '\n' ∉ A) :
    Scanner.skipLineAux l (A ++ '\n' :: B) = ⟨'\n' :: (A.reverse ++ l), B⟩ := by
  induction A generalizing l with
  | nil => simp [Scanner.skipLineAux]
  | cons a as ih =>
    have ha : a ≠ '\n' := fun he => h (he ▸ List.mem_cons_self a as)
    have hm : '\n' ∉ as := fun hm => h (List.mem_cons_of_mem a hm)
    rw [List.cons_append]
    show Scanner.skipLineAux l (a :: (as ++ '\n' :: B)) = _
    rw [Scanner.skipLineAux, if_neg ha, ih (a :: l) hm]
    simp [List.append_assoc]

theorem skip_to_next_line_append (A B left : Chars) (h : '\n' ∉ A) :
    Scanner.skip_to_next_line ⟨left, A ++ '\n' :: B⟩ =
      ⟨'\n' :: (A.reverse ++ left), B⟩ := by
  simp only [Scanner.skip_to_next_line]
  exact skipLineAux_append A B left h

theorem hasPrefix_takeWhile_newline (pat cs : Chars) (hnl : '\n' ∉ pat)
    (h : hasPrefix pat cs = true) :
    hasPrefix pat (cs.takeWhile (· ≠ '\n')) = true := by
  induction pat generalizing cs with
  | nil => rfl
  | cons p ps ih =>
    match cs with
    | [] => exact absurd h (by simp [hasPrefix])
    | c :: cs2 =>
      simp only [hasPrefix, Bool.and_eq_true, decide_eq_true_eq] at h
      have hp : p ≠ '\n' := fun he => hnl (he ▸ List.mem_cons_self p ps)
      have hc : c ≠ '\n' := h.1 ▸ hp
      rw [List.takeWhile_cons, if_pos (by simpa using hc)]
      simp only [hasPrefix, Bool.and_eq_true, decide_eq_true_eq]
      exact ⟨h.1, ih cs2 (fun hm => hnl (List.mem_cons_of_mem p hm)) h.2⟩

theorem mem_of_mem_trimStart (x : Char) (l : Chars) (h : x ∈ trimStart l) : x ∈ l :=
  (List.dropWhile_sublist isWS).subset h

theorem mem_of_mem_trim (x : Char) (l : Chars) (h : x ∈ trim l) : x ∈ l := by
  have h1 : x ∈ trimStart l := by
    have h2 : x ∈ (trimStart l).reverse.dropWhile isWS := by
      simpa [trim, trimEnd] using h
    have := (List.dropWhile_sublist isWS (l := (trimStart l).reverse)).subset h2
    simpa using this
  exact mem_of_mem_trimStart x l h1

end HttpRestFile

namespace HttpRestFile

/-- With the body section empty — the input exhausted or a separator line
right at the cursor — the raw body parser yields `Body::None`. -/
theorem parse_raw_body_empty (s : Scanner)
    (hemp : s.rest = [] ∨ hasPrefix REQUEST_SEPARATOR s.rest = true) :
    (Parser.parse_raw_body s).1 = .None := by
  rcases hemp with h | h
  · unfold Parser.parse_raw_body
    rw [if_pos (by simp [Scanner.is_done, h])]
  · have hne : s.rest ≠ [] := by
      intro he
      rw [he] at h
      simp [hasPrefix, REQUEST_SEPARATOR] at h
    have hpk : s.peek_line = some (s.rest.takeWhile (· ≠ '\n')) := by
      simp [Scanner.peek_line, hne]
    have hpre : hasPrefix REQUEST_SEPARATOR (s.rest.takeWhile (· ≠ '\n')) = true :=
      hasPrefix_takeWhile_newline _ _ (by decide) h
    have hloop : Parser.raw_body_loop (s.rest.length + 1) s = s := by
      simp only [Parser.raw_body_loop, hpk, hpre, if_true]
    unfold Parser.parse_raw_body
    rw [if_neg (by simp [Scanner.is_done, hne])]
    simp only [hloop, Scanner.get_from_to, Nat.sub_self, List.take_zero]
    rfl

/-- C7: with an empty body section, an absent `Content-Type` yields
`Body::None` while a present `Content-Type` (neither multipart nor
url-encoded dispatch) yields an explicit empty Raw body, and the two
results are never equal. -/
theorem C7_theorem (headers : List Header) (s : Scanner)
    (hemp : s.rest = [] ∨ hasPrefix REQUEST_SEPARATOR s.rest = true) :
    (headers.find? (fun h => h.key = "Content-Type") = none →
      (Parser.parse_body s headers).1 = .ok .None) ∧
    (∀ cth, headers.find? (fun h => h.key = "Content-Type") = some cth →
      hasPrefix "multipart/form-data".data cth.value.data = false →
      cth.value ≠ "application/x-www-form-urlencoded" →
      (Parser.parse_body s headers).1 = .ok (.Raw (.Raw ""))) ∧
    RequestBody.Raw (.Raw "") ≠ RequestBody.None := by
  refine ⟨?_, ?_, by decide⟩
  · intro hfind
    rcases hrb : Parser.parse_raw_body s with ⟨b, s1⟩
    have hb : b = .None := by
      have := parse_raw_body_empty s hemp
      rw [hrb] at this
      exact this
    simp [Parser.parse_body, hfind, hrb, hb]
  · intro cth hfind hmp hurl
    rcases hrb : Parser.parse_raw_body s with ⟨b, s1⟩
    have hb : b = .None := by
      have := parse_raw_body_empty s hemp
      rw [hrb] at this
      exact this
    simp [Parser.parse_body, hfind, hrb, hb, hmp, hurl]

/-- Witness for `C7_theorem`: at the end of the input, no Content-Type
gives `Body::None` and `Content-Type: application/json` gives the
explicit empty Raw body. -/
theorem C7_theorem_witness :
    (Parser.parse_body (Scanner.new "") ([] : List Header)).1 = .ok .None ∧
    (Parser.parse_body (Scanner.new "")
      [⟨"Content-Type", "application/json"⟩]).1 = .ok (.Raw (.Raw "")) :=
  ⟨( C7_theorem [] (Scanner.new "") (Or.inl rfl)).1 rfl,
   ( C7_theorem [⟨"Content-Type", "application/json"⟩] (Scanner.new "") (Or.inl rfl)).2.1
     ⟨"Content-Type", "application/json"⟩ (by decide) (by decide) (by decide)⟩

end HttpRestFile

namespace HttpRestFile

/-- The ordered key/value pairs of a url-encoded body line, as the claim
describes them: split on `&`, then each piece on `=` into key and value,
a piece without `=` getting an empty value. -/
def urlPairsSpec (l : Chars) : List UrlEncodedParam :=
  (splitOnChar '&' l).map (fun kv =>
    ⟨String.mk (((splitOnChar '=' kv).head?).getD []),
     String.mk ((((splitOnChar '=' kv).drop 1).head?).getD [])⟩)

/-- C8: for a request whose Content-Type is exactly
`application/x-www-form-urlencoded`, the body parser splits the (trimmed)
next line on `&` and then on `=` into ordered key/value pairs, a pair
missing `=` getting an empty value; a next line beginning (after
trimming) with the separator marker yields an empty pair list. -/
theorem C8_theorem (headers : List Header) (line rest2 left : Chars)
    (hnl : '\n' ∉ line)
    (hct : (headers.find? (fun h => h.key = "Content-Type")).map (fun h => h.value) =
      some "application/x-www-form-urlencoded") :
    (hasPrefix REQUEST_SEPARATOR (trim line) = false →
      (Parser.parse_body ⟨left, line ++ '\n' :: rest2⟩ headers).1 =
        .ok (.UrlEncoded (urlPairsSpec (trim line)))) ∧
    (hasPrefix REQUEST_SEPARATOR (trim line) = true →
      (Parser.parse_body ⟨left, line ++ '\n' :: rest2⟩ headers).1 =
        .ok (.UrlEncoded [])) := by
  obtain ⟨h0, hfind, hval⟩ := Option.map_eq_some'.mp hct
  have hpk : (Scanner.mk left (line ++ '\n' :: rest2)).peek_line = some line := by
    simp only [Scanner.peek_line, List.isEmpty_eq_true, List.append_eq_nil, List.cons_ne_self,
      and_false, if_false, takeWhile_append_of_not_mem '\n' line rest2 hnl]
    simp
  have hmp : hasPrefix "multipart/form-data".data
      "application/x-www-form-urlencoded".data = false := by decide
  have hurl : h0.value = "application/x-www-form-urlencoded" := hval
  constructor
  · intro hsep
    simp [Parser.parse_body, hfind, hmp, hurl, Parser.parse_body_urlencoded, hpk, hsep,
      urlPairsSpec]
  · intro hsep
    simp [Parser.parse_body, hfind, hmp, hurl, Parser.parse_body_urlencoded, hpk, hsep]

/-- Witness for `C8_theorem`: the claim's example — the line
`a=b&c=d&e=` yields the ordered pairs `[(a,b), (c,d), (e,"")]` — and a
separator line yields the empty pair list. -/
theorem C8_theorem_witness :
    (Parser.parse_body ⟨[], "a=b&c=d&e=".data ++ '\n' :: "###".data⟩
      [⟨"Content-Type", "application/x-www-form-urlencoded"⟩]).1 =
      .ok (.UrlEncoded [⟨"a", "b"⟩, ⟨"c", "d"⟩, ⟨"e", ""⟩]) ∧
    (Parser.parse_body ⟨[], "### next".data ++ '\n' :: []⟩
      [⟨"Content-Type", "application/x-www-form-urlencoded"⟩]).1 =
      .ok (.UrlEncoded []) :=
  ⟨( C8_theorem [⟨"Content-Type", "application/x-www-form-urlencoded"⟩]
      "a=b&c=d&e=".data "###".data [] (by decide) (by decide)).1 (by decide),
   ( C8_theorem [⟨"Content-Type", "application/x-www-form-urlencoded"⟩]
      "### next".data [] [] (by decide) (by decide)).2 (by decide)⟩

end HttpRestFile

namespace HttpRestFile

/-- The text of a block of lines, each terminated by a newline, followed
by the remaining text. -/
def linesJoin (ls : List Chars) (rest : Chars) : Chars :=
  ls.foldr (fun l acc => l ++ '\n' :: acc) rest

/-- The text after the continuation block must not itself begin with a
continuation line: it is empty, or its first line is empty, or starts
with a non-whitespace character. -/
def stopsIndent (rest : Chars) : Bool :=
  match rest with
  | [] => true
  | c :: _ => c = '\n' || !isHWS c

theorem collectIndentedAux_spec :
    ∀ (conts : List Chars) (fuel : Nat) (l rest2 : Chars),
      (∀ cl ∈ conts, cl ≠ [] ∧ isHWS (cl.headD ' ') = true ∧ '\n' ∉ cl) →
      stopsIndent rest2 = true →
      (linesJoin conts rest2).length < fuel →
      Parser.collectIndentedAux fuel ⟨l, linesJoin conts rest2⟩ =
        (conts, ⟨conts.foldl (fun acc cl => '\n' :: (cl.reverse ++ acc)) l, rest2⟩) := by
  intro conts
  induction conts with
  | nil =>
    intro fuel l rest2 _ hr hlen
    match fuel with
    | 0 => exact absurd hlen (by simp)
    | f + 1 =>
      show Parser.collectIndentedAux (f + 1) ⟨l, rest2⟩ = ([], ⟨l, rest2⟩)
      match rest2 with
      | [] => rfl
      | c :: t =>
        have hpk : (Scanner.mk l (c :: t)).peek_line =
            some ((c :: t).takeWhile (· ≠ '\n')) := by
          simp [Scanner.peek_line]
        simp only [stopsIndent, Bool.or_eq_true, Bool.not_eq_true, decide_eq_true_eq] at hr
        rcases hr with hc | hc
        · subst hc
          simp [Parser.collectIndentedAux, hpk, List.takeWhile_cons]
        · have hcf : isHWS c = false := by simpa using hc
          simp only [Parser.collectIndentedAux, hpk]
          by_cases hcn : c = '\n'
          · subst hcn
            simp [List.takeWhile_cons]
          · rw [List.takeWhile_cons, if_pos (by simpa using hcn)]
            simp [hcf]
  | cons cl cls ih =>
    intro fuel l rest2 hc hr hlen
    obtain ⟨hne, hhd, hnlc⟩ := hc cl (List.mem_cons_self cl cls)
    match hcl : cl with
    | [] => exact absurd rfl hne
    | c :: clt =>
      have hhws : isHWS c = true := by simpa using hhd
      have hjoin : linesJoin ((c :: clt) :: cls) rest2 =
          (c :: clt) ++ '\n' :: linesJoin cls rest2 := rfl
      match fuel with
      | 0 => exact absurd hlen (by simp)
      | f + 1 =>
        have hpk : (Scanner.mk l (linesJoin ((c :: clt) :: cls) rest2)).peek_line =
            some (c :: clt) := by
          rw [hjoin]
          simp only [Scanner.peek_line, List.isEmpty_eq_true]
          rw [if_neg (by simp)]
          rw [takeWhile_append_of_not_mem '\n' (c :: clt) (linesJoin cls rest2) hnlc]
        have hskip : Scanner.skip_to_next_line ⟨l, linesJoin ((c :: clt) :: cls) rest2⟩ =
            ⟨'\n' :: ((c :: clt).reverse ++ l), linesJoin cls rest2⟩ := by
          rw [hjoin]
          exact skip_to_next_line_append (c :: clt) (linesJoin cls rest2) l hnlc
        have hlen2 : (linesJoin cls rest2).length < f := by
          rw [hjoin] at hlen
          simp only [List.length_append, List.length_cons] at hlen
          omega
        have hrec := ih f ('\n' :: ((c :: clt).reverse ++ l)) rest2
          (fun x hx => hc x (List.mem_cons_of_mem _ hx)) hr hlen2
        simp only [Parser.collectIndentedAux, hpk, hhws, if_true, hskip, hrec]
        simp [List.foldl_cons]

theorem requestLineOf_fromTokens (tokens : List Chars) (p1 p2 q1 q2 : Nat) :
    requestLineOf (Parser.requestLineFromTokens tokens p1 p2) =
    requestLineOf (Parser.requestLineFromTokens tokens q1 q2) := by
  match tokens with
  | [] => rfl
  | [t] => rfl
  | t0 :: t1 :: rest =>
    simp only [Parser.requestLineFromTokens]
    by_cases hcol : containsChar ':' t0 = true
    · simp [hcol, requestLineOf]
    · rw [if_neg (by simpa using hcol), if_neg (by simpa using hcol)]
      match rest with
      | [] => rfl
      | [v] =>
        rcases hv : HttpVersion.from_str (String.mk v) with e | ver <;>
          simp [hv, requestLineOf]
      | v :: e :: es => rfl

/-- C5: a request line split across indented continuation lines parses to
the same `RequestLine` — same target, method and http version — as the
single line obtained by concatenating the first line with each
continuation line trimmed, no separator inserted. -/
theorem C5_theorem (l0 : Chars) (conts : List Chars) (rest2 left1 left2 : Chars)
    (h0 : '\n' ∉ l0)
    (hc : ∀ cl ∈ conts, cl ≠ [] ∧ isHWS (cl.headD ' ') = true ∧ '\n' ∉ cl)
    (hr : stopsIndent rest2 = true) :
    requestLineOf (Parser.parse_request_line ⟨left1, l0 ++ '\n' :: linesJoin conts rest2⟩).1 =
    requestLineOf (Parser.parse_request_line
      ⟨left2, (l0 ++ (conts.map trim).flatten) ++ '\n' :: rest2⟩).1 := by
  have hnl2 : '\n' ∉ l0 ++ (conts.map trim).flatten := by
    intro hmem
    rcases List.mem_append.mp hmem with h | h
    · exact h0 h
    · rcases List.mem_flatten.mp h with ⟨tl, htl, hmtl⟩
      rcases List.mem_map.mp htl with ⟨cl, hcl, rfl⟩
      exact ((hc cl hcl).2.2) (mem_of_mem_trim _ _ hmtl)
  -- the multi-line side
  have hpk1 : (Scanner.mk left1 (l0 ++ '\n' :: linesJoin conts rest2)).peek_line = some l0 := by
    simp only [Scanner.peek_line, List.isEmpty_eq_true]
    rw [if_neg (by simp)]
    rw [takeWhile_append_of_not_mem '\n' l0 _ h0]
  have hskip1 : Scanner.skip_to_next_line ⟨left1, l0 ++ '\n' :: linesJoin conts rest2⟩ =
      ⟨'\n' :: (l0.reverse ++ left1), linesJoin conts rest2⟩ :=
    skip_to_next_line_append l0 _ left1 h0
  have hcoll1 : Parser.collectIndentedAux ((linesJoin conts rest2).length + 1)
      ⟨'\n' :: (l0.reverse ++ left1), linesJoin conts rest2⟩ =
      (conts, ⟨conts.foldl (fun acc cl => '\n' :: (cl.reverse ++ acc))
        ('\n' :: (l0.reverse ++ left1)), rest2⟩) :=
    collectIndentedAux_spec conts _ _ rest2 hc hr (by simp)
  -- the single-line side
  have hpk2 : (Scanner.mk left2 ((l0 ++ (conts.map trim).flatten) ++ '\n' :: rest2)).peek_line =
      some (l0 ++ (conts.map trim).flatten) := by
    simp only [Scanner.peek_line, List.isEmpty_eq_true]
    rw [if_neg (by simp)]
    rw [takeWhile_append_of_not_mem '\n' _ _ hnl2]
  have hskip2 : Scanner.skip_to_next_line
      ⟨left2, (l0 ++ (conts.map trim).flatten) ++ '\n' :: rest2⟩ =
      ⟨'\n' :: ((l0 ++ (conts.map trim).flatten).reverse ++ left2), rest2⟩ :=
    skip_to_next_line_append _ _ left2 hnl2
  have hcoll2 : Parser.collectIndentedAux (rest2.length + 1)
      ⟨'\n' :: ((l0 ++ (conts.map trim).flatten).reverse ++ left2), rest2⟩ =
      ([], ⟨'\n' :: ((l0 ++ (conts.map trim).flatten).reverse ++ left2), rest2⟩) := by
    have := collectIndentedAux_spec [] (rest2.length + 1)
      ('\n' :: ((l0 ++ (conts.map trim).flatten).reverse ++ left2)) rest2
      (by intro x hx; cases hx) hr (by simp [linesJoin])
    simpa [linesJoin] using this
  simp only [Parser.parse_request_line, Scanner.get_line_and_advance, hpk1, hpk2,
    hskip1, hskip2, Parser.collectIndented, Option.getD_some, hcoll1, hcoll2,
    List.map_nil, List.flatten_nil, List.append_nil]
  exact requestLineOf_fromTokens _ _ _ _ _

/-- Witness for `C5_theorem`: a target split over one indented
continuation line parses like its single-line concatenation. -/
theorem C5_theorem_witness :
    requestLineOf (Parser.parse_request_line
      ⟨[], "GET https://test.com:8080".data ++ '\n' ::
        linesJoin ["    /get".data] []⟩).1 =
    requestLineOf (Parser.parse_request_line
      ⟨[], ("GET https://test.com:8080".data ++
        (["    /get".data].map trim).flatten) ++ '\n' :: []⟩).1 :=
  C5_theorem "GET https://test.com:8080".data ["    /get".data] [] [] []
    (by decide) (by decide) (by decide)

end HttpRestFile

namespace HttpRestFile

/-- The text after the first colon of a line. -/
def afterFirstColon (l : Chars) : Chars := (l.dropWhile (· ≠ ':')).drop 1

/-- The header parsed from a line known to be accepted. -/
def headerOfLineD (l : Chars) : Header :=
  match Parser.headerOfLine l with
  | some kv => ⟨kv.1, kv.2⟩
  | none => ⟨"", ""⟩

/-- The headers of a successful header-section parse. -/
def headersOk (x : Except ParseErrorDetails (List Header)) : Option (List Header) :=
  match x with
  | .ok hs => some hs
  | .error _ => none

/-- The error kind of a failed header-section parse. -/
def headersErrKind (x : Except ParseErrorDetails (List Header)) : Option ParseError :=
  match x with
  | .ok _ => none
  | .error e => some e.error

theorem dropWhile_head_not (p : Char → Bool) :
    ∀ (l : Chars) (c : Char) (t : Chars), l.dropWhile p = c :: t → p c = false := by
  intro l
  induction l with
  | nil => intro c t h; simp [List.dropWhile] at h
  | cons a as ih =>
    intro c t h
    by_cases hp : p a = true
    · rw [List.dropWhile_cons, if_pos hp] at h
      exact ih c t h
    · rw [List.dropWhile_cons, if_neg hp] at h
      cases h
      simpa using hp

theorem dropWhile_eq_drop_takeWhile (p : Char → Bool) (l : Chars) :
    l.dropWhile p = l.drop (l.takeWhile p).length := by
  calc l.dropWhile p
      = (l.takeWhile p ++ l.dropWhile p).drop (l.takeWhile p).length :=
        (List.drop_left _ _).symm
    _ = l.drop (l.takeWhile p).length := by
        rw [List.takeWhile_append_dropWhile]

theorem headerOfLine_isSome_iff (line : Chars) :
    (Parser.headerOfLine line).isSome = true ↔
      (line.takeWhile (· ≠ ':') ≠ [] ∧ line.dropWhile (· ≠ ':') ≠ [] ∧
        afterFirstColon line ≠ []) := by
  have hdw : line.drop (line.takeWhile (· ≠ ':')).length = line.dropWhile (· ≠ ':') :=
    (dropWhile_eq_drop_takeWhile _ _).symm
  simp only [Parser.headerOfLine]
  rw [hdw]
  by_cases hk : line.takeWhile (· ≠ ':') = []
  · rw [if_pos hk]
    exact ⟨fun h => absurd h (by decide), fun hcon => absurd hk hcon.1⟩
  · rw [if_neg hk]
    split
    · rename_i r heq
      have haf : afterFirstColon line = r := by
        unfold afterFirstColon
        rw [heq, List.drop_one, List.tail_cons]
      rw [heq, haf]
      by_cases hr : r = []
      · rw [if_pos hr]
        exact ⟨fun h => absurd h (by decide), fun hcon => absurd hr hcon.2.2⟩
      · rw [if_neg hr]
        by_cases hrr : r.dropWhile isWS = []
        · rw [if_pos hrr]
          exact ⟨fun _ => ⟨hk, List.cons_ne_nil _ _, hr⟩, fun _ => rfl⟩
        · rw [if_neg hrr]
          exact ⟨fun _ => ⟨hk, List.cons_ne_nil _ _, hr⟩, fun _ => rfl⟩
    · rename_i heq
      constructor
      · intro h
        exact absurd h (by decide)
      · rintro ⟨-, h2, -⟩
        rcases hdd : line.dropWhile (· ≠ ':') with _ | ⟨c, t⟩
        · exact absurd hdd h2
        · have hc : c = ':' := by
            simpa using dropWhile_head_not (fun x => decide (x ≠ ':')) line c t hdd
          exact (heq t (hc ▸ hdd)).elim

theorem headerOfLine_shape (line : Chars) (k v : String)
    (h : Parser.headerOfLine line = some (k, v)) :
    k.data = line.takeWhile (· ≠ ':') ∧
    v.data = (if (afterFirstColon line).dropWhile isWS = []
      then (afterFirstColon line).drop ((afterFirstColon line).length - 1)
      else (afterFirstColon line).dropWhile isWS) := by
  have hdw : line.drop (line.takeWhile (· ≠ ':')).length = line.dropWhile (· ≠ ':') :=
    (dropWhile_eq_drop_takeWhile _ _).symm
  simp only [Parser.headerOfLine] at h
  rw [hdw] at h
  by_cases hk : line.takeWhile (· ≠ ':') = []
  · rw [if_pos hk] at h
    exact absurd h (by simp)
  · rw [if_neg hk] at h
    split at h
    · rename_i r heq
      have haf : afterFirstColon line = r := by
        unfold afterFirstColon
        rw [heq, List.drop_one, List.tail_cons]
      rw [haf]
      by_cases hr : r = []
      · rw [if_pos hr] at h
        exact absurd h (by simp)
      · rw [if_neg hr] at h
        by_cases hrr : r.dropWhile isWS = []
        · rw [if_pos hrr] at h
          simp only [Option.some.injEq, Prod.mk.injEq] at h
          rw [if_pos hrr, ← h.1, ← h.2]
          exact ⟨rfl, rfl⟩
        · rw [if_neg hrr] at h
          simp only [Option.some.injEq, Prod.mk.injEq] at h
          rw [if_neg hrr, ← h.1, ← h.2]
          exact ⟨rfl, rfl⟩
    · rename_i heq
      exact absurd h (by simp)

theorem parse_headers_aux_good :
    ∀ (ls : List Chars) (fuel : Nat) (left : Chars) (acc : List Header) (rest2 : Chars),
      (∀ l ∈ ls, '\n' ∉ l ∧ l ≠ [] ∧ (Parser.headerOfLine l).isSome = true) →
      (linesJoin ls rest2).length < fuel →
      ∃ fuel2, rest2.length < fuel2 ∧
        Parser.parse_headers_aux fuel ⟨left, linesJoin ls rest2⟩ acc =
        Parser.parse_headers_aux fuel2
          ⟨ls.foldl (fun a l => '\n' :: (l.reverse ++ a)) left, rest2⟩
          (acc ++ ls.map headerOfLineD) := by
  intro ls
  induction ls with
  | nil =>
    intro fuel left acc rest2 _ hlen
    exact ⟨fuel, by simpa [linesJoin] using hlen, by simp [linesJoin]⟩
  | cons l ls' ih =>
    intro fuel left acc rest2 hg hlen
    obtain ⟨hnl, hne, hsome⟩ := hg l (List.mem_cons_self l ls')
    obtain ⟨kv, hkv⟩ := Option.isSome_iff_exists.mp hsome
    obtain ⟨k, v⟩ := kv
    rcases l with _ | ⟨c, lt⟩
    · exact absurd rfl hne
    · match fuel with
      | 0 => exact absurd hlen (Nat.not_lt_zero _)
      | f + 1 =>
        have hcn : c ≠ '\n' := fun he => hnl (he ▸ List.mem_cons_self c lt)
        have hjoin : linesJoin ((c :: lt) :: ls') rest2 =
            (c :: lt) ++ '\n' :: linesJoin ls' rest2 := rfl
        have hlen2 : (linesJoin ls' rest2).length < f := by
          rw [hjoin] at hlen
          simp only [List.length_append, List.length_cons] at hlen
          omega
        have htw2 : (c :: (lt ++ '\n' :: linesJoin ls' rest2)).takeWhile (· ≠ '\n') =
            c :: lt :=
          takeWhile_append_of_not_mem '\n' (c :: lt) _ hnl
        have hskip2 : Scanner.skip_to_next_line
            ⟨left, c :: (lt ++ '\n' :: linesJoin ls' rest2)⟩ =
            ⟨'\n' :: ((c :: lt).reverse ++ left), linesJoin ls' rest2⟩ :=
          skip_to_next_line_append (c :: lt) _ left hnl
        have hstep : Parser.parse_headers_aux (f + 1)
            ⟨left, linesJoin ((c :: lt) :: ls') rest2⟩ acc =
            Parser.parse_headers_aux f
              ⟨'\n' :: ((c :: lt).reverse ++ left), linesJoin ls' rest2⟩
              (acc ++ [⟨k, v⟩]) := by
          show Parser.parse_headers_aux (f + 1)
            ⟨left, c :: (lt ++ '\n' :: linesJoin ls' rest2)⟩ acc = _
          simp only [Parser.parse_headers_aux]
          rw [if_neg hcn]
          simp only [htw2, hskip2, hkv]
        obtain ⟨fuel2, hf2, hrec⟩ := ih f ('\n' :: ((c :: lt).reverse ++ left))
          (acc ++ [⟨k, v⟩]) rest2 (fun x hx => hg x (List.mem_cons_of_mem _ hx)) hlen2
        refine ⟨fuel2, hf2, ?_⟩
        rw [hstep, hrec]
        have hD : headerOfLineD (c :: lt) = ⟨k, v⟩ := by
          simp [headerOfLineD, hkv]
        simp [hD, List.append_assoc]

/-- C9: the regex `^([^:]+):\s*(.+)\s*` does NOT trim the value's
trailing whitespace — the line with key A and remainder consisting of b
and a trailing space yields the value with that space kept, which
differs from the trimmed remainder the claim prescribes. -/
theorem C9_counterexample :
    headersOk (Parser.parse_headers (Scanner.new "A: b \n\nX")).1 =
      some [⟨"A", "b "⟩] ∧
    String.mk (trim (afterFirstColon "A: b ".data)) = "b" ∧
    ("b " : String) ≠ "b" :=
  ⟨by decide, by decide, by decide⟩

/-- C9 (amended): a consumed header line is accepted exactly when it has
a nonempty key before its first colon and a nonempty remainder after it;
the key is the text up to the first colon, but the value is not the
trimmed remainder: leading whitespace is removed while trailing
whitespace is kept, and an all-whitespace remainder leaves exactly its
last character.  A section of accepted lines followed by a blank line
parses to exactly those headers in order with duplicates preserved, and
a malformed consumed line yields a fatal InvalidHeaderField diagnostic
carrying the offending line text. -/
theorem C9_amended_theorem :
    (∀ (line : Chars),
      ((Parser.headerOfLine line).isSome = true ↔
        (line.takeWhile (· ≠ ':') ≠ [] ∧ line.dropWhile (· ≠ ':') ≠ [] ∧
          afterFirstColon line ≠ []))) ∧
    (∀ (line : Chars) (k v : String), Parser.headerOfLine line = some (k, v) →
      k.data = line.takeWhile (· ≠ ':') ∧
      v.data = (if (afterFirstColon line).dropWhile isWS = []
        then (afterFirstColon line).drop ((afterFirstColon line).length - 1)
        else (afterFirstColon line).dropWhile isWS)) ∧
    (∀ (ls : List Chars) (rest2 : Chars),
      (∀ l ∈ ls, '\n' ∉ l ∧ l ≠ [] ∧ (Parser.headerOfLine l).isSome = true) →
      headersOk (Parser.parse_headers ⟨[], linesJoin ls ('\n' :: rest2)⟩).1 =
        some (ls.map headerOfLineD)) ∧
    (∀ (ls : List Chars) (bad rest2 : Chars),
      (∀ l ∈ ls, '\n' ∉ l ∧ l ≠ [] ∧ (Parser.headerOfLine l).isSome = true) →
      '\n' ∉ bad → bad ≠ [] → Parser.headerOfLine bad = none →
      headersErrKind (Parser.parse_headers
          ⟨[], linesJoin ls (bad ++ '\n' :: rest2)⟩).1 =
        some (ParseError.InvalidHeaderField (String.mk bad))) := by
  refine ⟨headerOfLine_isSome_iff, headerOfLine_shape, ?_, ?_⟩
  · intro ls rest2 hg
    obtain ⟨fuel2, hf2, heq⟩ := parse_headers_aux_good ls
      ((linesJoin ls ('\n' :: rest2)).length + 1) [] [] ('\n' :: rest2) hg
      (Nat.lt_succ_self _)
    obtain ⟨f, rfl⟩ : ∃ f, fuel2 = f + 1 := ⟨fuel2 - 1, by omega⟩
    show headersOk (Parser.parse_headers_aux
      ((linesJoin ls ('\n' :: rest2)).length + 1)
      ⟨[], linesJoin ls ('\n' :: rest2)⟩ []).1 = _
    rw [heq]
    simp [Parser.parse_headers_aux, headersOk]
  · intro ls bad rest2 hg hnb hbne hnone
    obtain ⟨fuel2, hf2, heq⟩ := parse_headers_aux_good ls
      ((linesJoin ls (bad ++ '\n' :: rest2)).length + 1) [] []
      (bad ++ '\n' :: rest2) hg (Nat.lt_succ_self _)
    obtain ⟨f, rfl⟩ : ∃ f, fuel2 = f + 1 := ⟨fuel2 - 1, by omega⟩
    rcases bad with _ | ⟨b, bt⟩
    · exact absurd rfl hbne
    · have hbn : b ≠ '\n' := fun he => hnb (he ▸ List.mem_cons_self b bt)
      have htwb : (b :: (bt ++ '\n' :: rest2)).takeWhile (· ≠ '\n') = b :: bt :=
        takeWhile_append_of_not_mem '\n' (b :: bt) _ hnb
      show headersErrKind (Parser.parse_headers_aux
        ((linesJoin ls ((b :: bt) ++ '\n' :: rest2)).length + 1)
        ⟨[], linesJoin ls ((b :: bt) ++ '\n' :: rest2)⟩ []).1 = _
      rw [heq]
      show headersErrKind (Parser.parse_headers_aux (f + 1)
        ⟨ls.foldl (fun a l => '\n' :: (l.reverse ++ a)) [],
          b :: (bt ++ '\n' :: rest2)⟩ ([] ++ ls.map headerOfLineD)).1 = _
      simp only [Parser.parse_headers_aux]
      rw [if_neg hbn]
      simp only [htwb, hnone]
      simp [headersErrKind, ParseErrorDetails.new_with_position]

/-- Witness for `C9_amended_theorem`: two identical well-formed header
lines followed by a blank line parse to both headers in order, the
duplicate preserved. -/
theorem C9_amended_theorem_witness :
    headersOk (Parser.parse_headers
      ⟨[], linesJoin ["K: v".data, "K: v".data] ('\n' :: "X".data)⟩).1 =
      some (["K: v".data, "K: v".data].map headerOfLineD) :=
  C9_amended_theorem.2.2.1 ["K: v".data, "K: v".data] "X".data (by decide)

end HttpRestFile
